import Mathlib

/-!
Verification of the rumqtt router data plane (rumqttd `router/logs.rs`) and
the rumqttc v5 PubComp codec (`v5/mqttbytes/v5/pubcomp.rs`) against their
natural-language specification.

The Rust sources are shallowly embedded: machine integers become `Nat`
(with explicit truncation where the code truncates), `HashMap` becomes an
association list (all uses here are order-insensitive or are proved about
the deterministic insertion-ordered model), `Slab` with insert-only usage
becomes a list indexed by position, `VecDeque` becomes a list, `Bytes` /
`BytesMut` become `List Nat` of byte values, and fallible code returns
`Except`.  Collaborator types that live outside the excerpted modules
(commit log, waiters, publish, acks, codec helpers) are modelled from the
specification, as marked on each such definition.
-/

set_option linter.unusedVariables false

deriving instance DecidableEq for Except

/-! ## Offsets

`Offset` is `(SegmentId, CursorPosition) = (u64, u64)`; the Rust tuple's
derived `Ord` is lexicographic, and `Option<Offset>` orders `None` below
every `Some`. -/

/-- An offset `(segment_id, position)` in one filter's commit log. -/
abbrev Offset := Nat × Nat

/-- Lexicographic order on offsets, mirroring the derived `Ord` of the Rust
tuple `(u64, u64)`. -/
def offLe (a b : Offset) : Bool :=
  decide (a.1 < b.1) || (decide (a.1 = b.1) && decide (a.2 ≤ b.2))

/-- Strict lexicographic order on offsets. -/
def offLt (a b : Offset) : Bool :=
  decide (a.1 < b.1) || (decide (a.1 = b.1) && decide (a.2 < b.2))

/-- Order on `Option Offset` mirroring Rust `Option<T> : Ord`, where `None`
sorts below every `Some`. -/
def optLe : Option Offset → Option Offset → Bool
  | none, _ => true
  | some _, none => false
  | some a, some b => offLe a b

/-- Strict order on `Option Offset` (`None < Some _`). -/
def optLt : Option Offset → Option Offset → Bool
  | none, none => false
  | none, some _ => true
  | some _, none => false
  | some a, some b => offLt a b

/-- Minimum of two offsets in the lexicographic order. -/
def offMin (a b : Offset) : Offset := if offLe a b then a else b

/-- Minimum of a list of offsets (`Iterator::min`): `none` on the empty
list. -/
def minOffList (l : List Offset) : Option Offset :=
  l.foldl (fun acc x => match acc with
    | none => some x
    | some m => some (offMin m x)) none

/-! ## Association lists

`HashMap` is modelled as an association list; `insert` replaces the value
of an existing key in place and otherwise appends. -/

/-- Lookup in an association list (model of `HashMap::get`). -/
def alookup {κ α : Type} [DecidableEq κ] : List (κ × α) → κ → Option α
  | [], _ => none
  | (k, v) :: tl, key => if k = key then some v else alookup tl key

/-- Insert-or-replace in an association list (model of `HashMap::insert`
and of `entry(k).or_default()` followed by assignment). -/
def aupdate {κ α : Type} [DecidableEq κ] : List (κ × α) → κ → α → List (κ × α)
  | [], key, v => [(key, v)]
  | (k, w) :: tl, key, v =>
    if k = key then (k, v) :: tl else (k, w) :: aupdate tl key v

/-! ## MQTT topic matcher -/

/-- Split a character list on the separator `/`, keeping empty levels
(`"/a"` gives `[[], ['a']]`, distinct from `"a"`). -/
def splitLevels : List Char → List (List Char)
  | [] => [[]]
  | c :: cs =>
    if c = '/' then [] :: splitLevels cs
    else match splitLevels cs with
      | [] => [[c]]
      | l :: ls => (c :: l) :: ls

/-- Modelled from the spec: level-by-level MQTT filter matching (the
`matches` function of the protocol crate is not part of the excerpted
sources).  `+` matches any single non-`$`-prefixed level, `#` at the
terminal position of the filter matches all remaining levels including
zero. -/
def matchLevels : List (List Char) → List (List Char) → Bool
  | ts, [] => ts.isEmpty
  | ts, f :: fs =>
    if f = ['#'] && fs.isEmpty then true
    else match ts with
      | [] => false
      | t :: ts2 =>
        (if f = ['+'] then decide (t.head? ≠ some '$') else decide (t = f)) &&
          matchLevels ts2 fs

/-- Modelled from the spec: `matches(topic, filter)` of the protocol crate.
Tokenizes both strings on `/`; topics whose first character is `$` do not
match filters that begin with `+` or `#`. -/
def mqttMatches (topic filter : String) : Bool :=
  if topic.data.head? = some '$' &&
      (filter.data.head? = some '+' || filter.data.head? = some '#') then
    false
  else matchLevels (splitLevels topic.data) (splitLevels filter.data)

/-! ## Read markers (`ReadMarker` in `router/logs.rs`) -/

/-- `ReadMarker`: per-filter map from subscriber connection id to its last
persisted offset, with a cached slowest (minimum) marker. -/
structure ReadMarker where
  subscriber_markers : List (Nat × Offset)
  slowest_marker : Option Offset
  deriving DecidableEq, Repr

instance : Inhabited ReadMarker := ⟨⟨[], none⟩⟩

/-- Default `ReadMarker` (`#[derive(Default)]`): no subscribers, no slowest
marker. -/
def ReadMarker.default : ReadMarker := ⟨[], none⟩

/-- `ReadMarker::compute_slowest_marker`: recompute the cached slowest
marker as the minimum of all subscriber markers and report whether it moved
strictly ahead of the previous cached value. -/
def ReadMarker.compute_slowest_marker (rm : ReadMarker) : ReadMarker × Bool :=
  let prev := rm.slowest_marker
  let s := minOffList (rm.subscriber_markers.map Prod.snd)
  ({ rm with slowest_marker := s }, optLt prev s)

/-- `ReadMarker::update_subscriber_marker`: set the subscriber's marker
(last write wins), then recompute the slowest marker. -/
def ReadMarker.update_subscriber_marker (rm : ReadMarker) (subscriber_id : Nat)
    (marker : Offset) : ReadMarker × Bool :=
  ReadMarker.compute_slowest_marker
    { rm with subscriber_markers := aupdate rm.subscriber_markers subscriber_id marker }

/-- `ReadMarker::get_slowest_marker`. -/
def ReadMarker.get_slowest_marker (rm : ReadMarker) : Option Offset :=
  rm.slowest_marker

/-! ## Commit log and collaborator types -/

/-- Modelled from the spec: the `Storage` trait, providing `size()` in
bytes for items stored in a commit log. -/
class StorageC (T : Type) where
  size : T → Nat

/-- Modelled from the spec: the segmented commit log (`crate::segments`,
not part of the excerpted sources).  The active segment is `active` with
byte size `active_size`; `sealed` holds the sealed live segments newest
first, paired with their segment ids; `tail_id` is the id of the active
segment. -/
structure CommitLogM (T : Type) where
  max_segment_size : Nat
  max_segment_count : Nat
  tail_id : Nat
  active : List T
  active_size : Nat
  sealed : List (Nat × List T)
  deriving DecidableEq, Repr

/-- Modelled from the spec: a fresh commit log has one empty segment with
id 0. -/
def CommitLogM.new (T : Type) (max_segment_size max_segment_count : Nat) :
    CommitLogM T :=
  ⟨max_segment_size, max_segment_count, 0, [], 0, []⟩

/-- Modelled from the spec: id of the oldest live segment. -/
def CommitLogM.head_id {T : Type} (l : CommitLogM T) : Nat :=
  match l.sealed.getLast? with
  | some s => s.1
  | none => l.tail_id

/-- Modelled from the spec: `head_and_tail()` for metering. -/
def CommitLogM.head_and_tail {T : Type} (l : CommitLogM T) : Nat × Nat :=
  (l.head_id, l.tail_id)

/-- Modelled from the spec: the offset at which the next append will
land. -/
def CommitLogM.next_offset {T : Type} (l : CommitLogM T) : Offset :=
  (l.tail_id, l.active.length)

/-- Modelled from the spec: `append` places the item in the active segment
and returns the offset where it landed; if the active segment would exceed
`max_segment_size` it is sealed first and a new segment is opened, and if
the live segment count then exceeds `max_segment_count` the oldest sealed
segment is evicted (never the only segment). -/
def CommitLogM.append {T : Type} [StorageC T] (l : CommitLogM T) (item : T) :
    CommitLogM T × Offset :=
  let sz := StorageC.size item
  if l.active_size + sz > l.max_segment_size && !l.active.isEmpty then
    let sealed2 := (l.tail_id, l.active) :: l.sealed
    let sealed3 :=
      if sealed2.length + 1 > l.max_segment_count then sealed2.dropLast else sealed2
    ({ l with tail_id := l.tail_id + 1, active := [item], active_size := sz,
              sealed := sealed3 },
     (l.tail_id + 1, 0))
  else
    ({ l with active := l.active ++ [item], active_size := l.active_size + sz },
     (l.tail_id, l.active.length))

/-- Modelled from the spec: `last()`, a clone of the most recently appended
item of the active segment. -/
def CommitLogM.last {T : Type} (l : CommitLogM T) : Option T :=
  l.active.getLast?

/-- Modelled from the spec: one MQTT publish as stored in the data log
(`crate::protocol::Publish` is not part of the excerpted sources).  Only
the fields the router core observes are modelled. -/
structure PubM where
  topic : String
  payload : List Nat
  qos : Nat
  retain : Bool
  pkid : Nat
  deriving DecidableEq, Repr

/-- Modelled from the spec: `Publish::size()` in bytes. -/
def PubM.size (p : PubM) : Nat := p.topic.length + p.payload.length

instance : StorageC PubM := ⟨PubM.size⟩

/-- Modelled from the spec: a subscriber's `DataRequest` (defined in the
router module, not part of the excerpted sources): the filter it reads,
the filter's index and the read cursor. -/
structure DataRequest where
  filter : String
  filter_idx : Nat
  cursor : Offset
  deriving DecidableEq, Repr

/-- Modelled from the spec: the per-filter subscription meter. -/
structure SubscriptionMeter where
  count : Nat
  append_offset : Offset
  total_size : Nat
  head_and_tail_id : Nat × Nat
  deriving DecidableEq, Repr

/-- `SubscriptionMeter::default()`: all fields zero. -/
def SubscriptionMeter.default : SubscriptionMeter := ⟨0, (0, 0), 0, (0, 0)⟩

/-- Modelled from the spec: `Waiters::take` atomically empties the waiter
set and returns its whole contents, or `none` when no one was waiting. -/
def waitersTake (w : List (Nat × DataRequest)) :
    Option (List (Nat × DataRequest)) × List (Nat × DataRequest) :=
  if w.isEmpty then (none, w) else (some w, [])

/-- Modelled from the spec: `Waiters::remove(id)` removes every entry of
the connection and returns the removed requests. -/
def waitersRemove (w : List (Nat × DataRequest)) (id : Nat) :
    List DataRequest × List (Nat × DataRequest) :=
  ((w.filter (fun e => e.1 = id)).map Prod.snd,
   w.filter (fun e => e.1 ≠ id))

/-- `Data<T>` in `router/logs.rs`: one filter's entry bundling the filter
string, its commit log, its waiter set and its subscription meter. -/
structure DataEntry (T : Type) where
  filter : String
  log : CommitLogM T
  waiters : List (Nat × DataRequest)
  meter : SubscriptionMeter
  deriving DecidableEq, Repr

/-- `Data::new`. -/
def DataEntry.new (T : Type) (filter : String)
    (max_segment_size max_mem_segments : Nat) : DataEntry T :=
  ⟨filter, CommitLogM.new T max_segment_size max_mem_segments, [],
   SubscriptionMeter.default⟩

instance : Inhabited (DataEntry PubM) :=
  ⟨DataEntry.new PubM "" 0 0⟩

/-- `Data::append`: append the item to the commit log, wake every parked
waiter into `notifications`, and update the subscription meter.  Returns
the new entry, the extended notifications queue, and the `(offset, filter)`
pair returned by the source. -/
def DataEntry.append {T : Type} [StorageC T] (e : DataEntry T) (item : T)
    (notifications : List (Nat × DataRequest)) :
    DataEntry T × List (Nat × DataRequest) × Offset × String :=
  let sz := StorageC.size item
  let (log2, offset) := e.log.append item
  let (taken, waiters2) := waitersTake e.waiters
  let notifications2 := match taken with
    | some parked => notifications ++ parked
    | none => notifications
  let meter2 : SubscriptionMeter :=
    { count := e.meter.count + 1
      append_offset := offset
      total_size := e.meter.total_size + sz
      head_and_tail_id := log2.head_and_tail }
  ({ e with log := log2, waiters := waiters2, meter := meter2 },
   notifications2, offset, e.filter)

/-! ## The data log (`DataLog` in `router/logs.rs`) -/

/-- `RouterConfig` (defined in the configuration module; field list from
the spec's external-interface section). -/
structure RouterConfig where
  max_segment_size : Nat
  max_segment_count : Nat
  max_connections : Nat
  max_read_len : Nat
  instant_ack : Bool
  initialized_filters : Option (List String)
  deriving DecidableEq, Repr

/-- `DataLog`: all filter entries (`native`, a `Slab` used insert-only and
hence modelled as a list indexed by position), the filter-name index map,
the retained-publish table, the topic-to-filters cache and the read/write
markers. -/
structure DataLog where
  config : RouterConfig
  native : List (DataEntry PubM)
  filter_indexes : List (String × Nat)
  retained_publishes : List (String × PubM)
  publish_filters : List (String × List Nat)
  filter_read_markers : List (Nat × ReadMarker)
  filter_write_markers : List (Nat × List Nat)
  deriving DecidableEq, Repr

/-- `DataLog::new`: warm up the slab with the configured filters, leaving
every other table empty. -/
def DataLog.new (config : RouterConfig) : DataLog :=
  let warm := match config.initialized_filters with
    | some fs => fs
    | none => []
  let init : List (DataEntry PubM) × List (String × Nat) :=
    warm.foldl (fun acc filter =>
      let data := DataEntry.new PubM filter config.max_segment_size
        config.max_segment_count
      (acc.1 ++ [data], acc.2 ++ [(filter, acc.1.length)])) ([], [])
  ⟨config, init.1, init.2, [], [], [], []⟩

/-- Entry of the slab at an index (indices handed out by the data log are
always in range; out-of-range access panics in Rust and is given the
default entry here). -/
def DataLog.entryAt (d : DataLog) (idx : Nat) : DataEntry PubM :=
  d.native.getD idx default

/-- `DataLog::matches`: look the topic up in the topic-to-filters cache; on
a miss scan every registered filter, cache the resulting index list only
when it is non-empty, and return it. -/
def DataLog.matches (d : DataLog) (topic : String) :
    Option (List Nat) × DataLog :=
  match alookup d.publish_filters topic with
  | some v => (some v, d)
  | none =>
    let v := (d.filter_indexes.filter (fun p => mqttMatches topic p.1)).map Prod.snd
    if !v.isEmpty then
      (some v, { d with publish_filters := aupdate d.publish_filters topic v })
    else
      (some v, d)

/-- `DataLog::next_native_offset`: return the filter's index and the next
append offset of its log, creating the filter entry if absent; on creation
the new index is pushed onto every cached topic list whose topic matches
the new filter. -/
def DataLog.next_native_offset (d : DataLog) (filter : String) :
    Nat × Offset × DataLog :=
  match alookup d.filter_indexes filter with
  | some idx => (idx, (d.entryAt idx).log.next_offset, d)
  | none =>
    let data := DataEntry.new PubM filter d.config.max_segment_size
      d.config.max_segment_count
    let idx := d.native.length
    let pf2 := d.publish_filters.map (fun e =>
      if mqttMatches e.1 filter then (e.1, e.2 ++ [idx]) else e)
    (idx, data.log.next_offset,
     { d with native := d.native ++ [data],
              filter_indexes := d.filter_indexes ++ [(filter, idx)],
              publish_filters := pf2 })

/-- `DataLog::remove_waiters_for_id`: in the filter's waiter set, find the
position of the first waiter of the connection and remove it with
`VecDeque::swap_remove_back` (the back element takes its place). -/
def DataLog.remove_waiters_for_id (d : DataLog) (id : Nat) (filter : String) :
    Option DataRequest × DataLog :=
  match alookup d.filter_indexes filter with
  | none => (none, d)
  | some idx =>
    let data := d.entryAt idx
    match data.waiters.findIdx? (fun e => e.1 = id) with
    | none => (none, d)
    | some i =>
      match data.waiters.getLast? with
      | none => (none, d)
      | some lastw =>
        let waiters2 := ((data.waiters.set i lastw).dropLast)
        (some ((data.waiters.getD i lastw).2),
         { d with native := d.native.set idx ({ data with waiters := waiters2 }) })

/-- `DataLog::park`: register the connection in the waiter set of the
filter of its request. -/
def DataLog.park (d : DataLog) (id : Nat) (request : DataRequest) : DataLog :=
  let data := d.entryAt request.filter_idx
  let data2 := { data with waiters := data.waiters ++ [(id, request)] }
  { d with native := d.native.set request.filter_idx data2 }

/-- `DataLog::register_subscriber`: update the filter's read marker (taken
or freshly defaulted) with the subscriber's start cursor. -/
def DataLog.register_subscriber (d : DataLog) (filter_id : Nat)
    (start_cursor : Offset) (subscriber_id : Nat) : DataLog :=
  let marker := (alookup d.filter_read_markers filter_id).getD ReadMarker.default
  let marker2 := (marker.update_subscriber_marker subscriber_id start_cursor).1
  { d with filter_read_markers := aupdate d.filter_read_markers filter_id marker2 }

/-! ## The ack log (`AckLog` in `router/logs.rs`) -/

/-- Modelled from the spec: a `PubAck` control packet (protocol crate);
only the packet identifier is observed by the router core. -/
structure PubAckM where
  pkid : Nat
  deriving DecidableEq, Repr

/-- Modelled from the spec: an outgoing acknowledgement held in the
committed queue.  Only the `PubAck` constructor is exercised by the claims
under verification. -/
inductive AckM : Type
  | pubAck (a : PubAckM)
  deriving DecidableEq, Repr

/-- `DeferredAck`: one deferred-acknowledgement record of pending pubacks,
per-filter publish-offset queues and per-filter persisted thresholds. -/
structure DeferredAck where
  puback : List PubAckM
  filter_publish_markers : List (Nat × List Offset)
  filter_thresholds : List (Nat × Offset)
  deriving DecidableEq, Repr

/-- `AckLog`: committed outgoing acks, recorded QoS-2 publishes and the
deferred-ack records of one connection. -/
structure AckLog where
  committed : List AckM
  recorded : List PubM
  deferred_acks : List DeferredAck
  deriving DecidableEq, Repr

/-- `AckLog::new`. -/
def AckLog.new : AckLog := ⟨[], [], []⟩

/-- `AckLog::puback`: append the ack to the committed queue. -/
def AckLog.puback (a : AckLog) (ack : PubAckM) : AckLog :=
  { a with committed := a.committed ++ [AckM.pubAck ack] }

/-- `AckLog::insert_pending_acks`: the body of the source function is the
single comment `// do something`; it ignores both arguments and leaves the
ack log unchanged. -/
def AckLog.insert_pending_acks (a : AckLog) (puback : PubAckM)
    (offset_map : List (Nat × Offset)) : AckLog :=
  a

/-! ## PubComp codec (`rumqttc/src/v5/mqttbytes/v5/pubcomp.rs`)

Byte buffers (`Bytes` / `BytesMut`) are `List Nat` of byte values; the
writers below only produce values below 256, and the readers apply the
same `% 256` truncation a `u8` imposes where a read byte is used as a
number. -/

/-- Codec error values (`mqttbytes::Error`); only the variants reachable
from the PubComp codec are modelled. -/
inductive CodecError : Type
  | InvalidConnectReturnCode (code : Nat)
  | InvalidPropertyType (prop : Nat)
  | MalformedPacket
  | MalformedRemainingLength
  | InsufficientBytes (n : Nat)
  | BoundaryCrossed (n : Nat)
  | PayloadTooLong
  deriving DecidableEq, Repr

/-- Modelled from the spec: `len_len`, the byte count of the
variable-length-integer encoding of `len`. -/
def len_len (len : Nat) : Nat :=
  if len ≥ 2097152 then 4 else if len ≥ 16384 then 3 else if len ≥ 128 then 2 else 1

/-- Modelled from the spec: the byte sequence emitted by the
remaining-length do-while loop (emit the low seven bits with the
continuation bit set while a nonzero quotient remains).  The loop runs at
most four times for any length within the variable-length-integer bound,
so a fuel of four is exact at every call site. -/
def varintBytes : Nat → Nat → List Nat
  | 0, _ => []
  | fuel + 1, x =>
    let b := x % 128
    if x / 128 > 0 then (b + 128) :: varintBytes fuel (x / 128) else [b]

/-- Modelled from the spec: `write_remaining_length`: lengths above the
four-byte variable-length-integer maximum are rejected, otherwise the
encoding is appended and its byte count returned. -/
def write_remaining_length (buffer : List Nat) (len : Nat) :
    List Nat × Except CodecError Nat :=
  if len > 268435455 then (buffer, .error .PayloadTooLong)
  else (buffer ++ varintBytes 4 len, .ok (varintBytes 4 len).length)

/-- Modelled from the spec: `length(stream)`, the variable-length-integer
decoder: accumulate seven bits per byte until a byte without the
continuation bit, rejecting encodings longer than four bytes.  For a byte
`b < 256`, `b & 0x7F` is `b % 128` and `b & 0x80 == 0` is `b % 256 < 128`. -/
def parseVarintAux : List Nat → Nat → Nat → Nat → Except CodecError (Nat × Nat)
  | [], _, _, _ => .error (.InsufficientBytes 1)
  | b :: rest, shift, len, ll =>
    let len2 := len + b % 128 * 2 ^ shift
    if b % 256 < 128 then .ok (ll + 1, len2)
    else if shift + 7 > 21 then .error .MalformedRemainingLength
    else parseVarintAux rest (shift + 7) len2 (ll + 1)

/-- Modelled from the spec: entry point of the variable-length-integer
decoder; returns the byte count of the encoding and the decoded value. -/
def parseVarint (bs : List Nat) : Except CodecError (Nat × Nat) :=
  parseVarintAux bs 0 0 0

/-- Modelled from the spec: `read_u8`. -/
def read_u8 : List Nat → Except CodecError (Nat × List Nat)
  | [] => .error .MalformedPacket
  | b :: rest => .ok (b % 256, rest)

/-- Modelled from the spec: `read_u16`, big endian. -/
def read_u16 : List Nat → Except CodecError (Nat × List Nat)
  | b0 :: b1 :: rest => .ok (b0 % 256 * 256 + b1 % 256, rest)
  | _ => .error .MalformedPacket

/-- Big-endian encoding of a `u16` value (`put_u16`); the `% 256` mirrors
the truncation of `as u16` for oversized values. -/
def u16be (n : Nat) : List Nat := [n / 256 % 256, n % 256]

/-- Modelled from the spec: `read_mqtt_string`, a byte string prefixed
with its two-byte big-endian length.  Rust strings are embedded as their
UTF-8 byte lists, so the `from_utf8` revalidation of the source is the
identity on every byte list a `String` can produce. -/
def read_mqtt_string (s : List Nat) : Except CodecError (List Nat × List Nat) :=
  match read_u16 s with
  | .error e => .error e
  | .ok (len, rest) =>
    if len > rest.length then .error (.BoundaryCrossed len)
    else .ok (rest.take len, rest.drop len)

/-- Modelled from the spec: `write_mqtt_string`: two-byte length prefix
followed by the bytes. -/
def write_mqtt_string (buffer : List Nat) (s : List Nat) : List Nat :=
  buffer ++ u16be s.length ++ s

/-- Modelled from the spec: the MQTT v5 property types (`PropertyType` in
the codec module). -/
inductive PropertyType : Type
  | PayloadFormatIndicator
  | MessageExpiryInterval
  | ContentType
  | ResponseTopic
  | CorrelationData
  | SubscriptionIdentifier
  | SessionExpiryInterval
  | AssignedClientIdentifier
  | ServerKeepAlive
  | AuthenticationMethod
  | AuthenticationData
  | RequestProblemInformation
  | WillDelayInterval
  | RequestResponseInformation
  | ResponseInformation
  | ServerReference
  | ReasonString
  | ReceiveMaximum
  | TopicAliasMaximum
  | TopicAlias
  | MaximumQos
  | RetainAvailable
  | UserProperty
  | MaximumPacketSize
  | WildcardSubscriptionAvailable
  | SubscriptionIdentifierAvailable
  | SharedSubscriptionAvailable
  deriving DecidableEq, Repr

/-- Modelled from the spec: `property(num)`, the property-identifier
table; unrecognized identifiers fail decoding. -/
def property (num : Nat) : Except CodecError PropertyType :=
  match num with
  | 1 => .ok .PayloadFormatIndicator
  | 2 => .ok .MessageExpiryInterval
  | 3 => .ok .ContentType
  | 8 => .ok .ResponseTopic
  | 9 => .ok .CorrelationData
  | 11 => .ok .SubscriptionIdentifier
  | 17 => .ok .SessionExpiryInterval
  | 18 => .ok .AssignedClientIdentifier
  | 19 => .ok .ServerKeepAlive
  | 21 => .ok .AuthenticationMethod
  | 22 => .ok .AuthenticationData
  | 23 => .ok .RequestProblemInformation
  | 24 => .ok .WillDelayInterval
  | 25 => .ok .RequestResponseInformation
  | 26 => .ok .ResponseInformation
  | 28 => .ok .ServerReference
  | 31 => .ok .ReasonString
  | 33 => .ok .ReceiveMaximum
  | 34 => .ok .TopicAliasMaximum
  | 35 => .ok .TopicAlias
  | 36 => .ok .MaximumQos
  | 37 => .ok .RetainAvailable
  | 38 => .ok .UserProperty
  | 39 => .ok .MaximumPacketSize
  | 40 => .ok .WildcardSubscriptionAvailable
  | 41 => .ok .SubscriptionIdentifierAvailable
  | 42 => .ok .SharedSubscriptionAvailable
  | n => .error (.InvalidPropertyType n)

/-- Modelled from the spec: the fixed header: first byte, total length of
the fixed header (1 + length of the remaining-length field) and the
decoded remaining length. -/
structure FixedHeaderM where
  byte1 : Nat
  fixed_header_len : Nat
  remaining_len : Nat
  deriving DecidableEq, Repr

/-- Modelled from the spec: `parse_fixed_header`: at least two bytes, then
the first byte and the variable-length remaining length. -/
def parse_fixed_header (s : List Nat) : Except CodecError FixedHeaderM :=
  match s with
  | [] => .error (.InsufficientBytes 2)
  | b1 :: rest =>
    if s.length < 2 then .error (.InsufficientBytes (2 - s.length))
    else match parseVarint rest with
      | .error e => .error e
      | .ok (ll, len) => .ok ⟨b1 % 256, 1 + ll, len⟩

/-- `PubCompReason` (`pubcomp.rs`). -/
inductive PubCompReason : Type
  | Success
  | PacketIdentifierNotFound
  deriving DecidableEq, Repr

/-- `PubCompProperties`: optional reason string and user-property pairs
(strings embedded as their UTF-8 byte lists). -/
structure PubCompProperties where
  reason_string : Option (List Nat)
  user_properties : List (List Nat × List Nat)
  deriving DecidableEq, Repr

/-- `PubComp` packet. -/
structure PubComp where
  pkid : Nat
  reason : PubCompReason
  properties : Option PubCompProperties
  deriving DecidableEq, Repr

/-- `reason(num)` in `pubcomp.rs`: only `0x00` and `0x92` are recognized.
(Named `reasonOf` here because inside the `PubComp` namespace the bare
source name would be shadowed by the `reason` field accessor.) -/
def reasonOf (num : Nat) : Except CodecError PubCompReason :=
  match num with
  | 0 => .ok .Success
  | 146 => .ok .PacketIdentifierNotFound
  | n => .error (.InvalidConnectReturnCode n)

/-- `code(reason)` in `pubcomp.rs`. -/
def code : PubCompReason → Nat
  | .Success => 0
  | .PacketIdentifierNotFound => 146

/-- `PubCompProperties::len`: one identifier byte plus a length-prefixed
string per property (two strings for a user property). -/
def PubCompProperties.len (p : PubCompProperties) : Nat :=
  let len0 := match p.reason_string with
    | some r => 1 + 2 + r.length
    | none => 0
  p.user_properties.foldl
    (fun len kv => len + (1 + 2 + kv.1.length + 2 + kv.2.length)) len0

/-- `PubComp::len`: pkid and reason byte plus the properties block; the
short form (`Success`, no properties) has remaining length 2. -/
def PubComp.len (p : PubComp) : Nat :=
  if p.reason = .Success && p.properties.isNone then 2
  else match p.properties with
    | some props => 2 + 1 + (len_len props.len + props.len)
    | none => 2 + 1 + 1

/-- `PubComp::size`: 4 bytes in the short form, else one header byte plus
the remaining-length field plus the remaining length. -/
def PubComp.size (p : PubComp) : Nat :=
  if p.reason = .Success && p.properties.isNone then 4
  else 1 + len_len p.len + p.len

/-- `PubCompProperties::write`: properties length as a variable-length
integer, then the reason string (id 31), then each user property (id
38). -/
def PubCompProperties.write (p : PubCompProperties) (buffer : List Nat) :
    List Nat × Except CodecError Unit :=
  match write_remaining_length buffer p.len with
  | (buf2, .error e) => (buf2, .error e)
  | (buf2, .ok _) =>
    let buf3 := match p.reason_string with
      | some r => write_mqtt_string (buf2 ++ [31]) r
      | none => buf2
    let buf4 := p.user_properties.foldl
      (fun b kv => write_mqtt_string (write_mqtt_string (b ++ [38]) kv.1) kv.2) buf3
    (buf4, .ok ())

/-- `PubComp::write`: header byte `0x70`, remaining length, pkid; the
short form stops there returning 4, the long form adds the reason byte and
the properties block (an explicit zero length when properties are
absent). -/
def PubComp.write (p : PubComp) (buffer : List Nat) :
    List Nat × Except CodecError Nat :=
  match write_remaining_length (buffer ++ [0x70]) p.len with
  | (buf2, .error e) => (buf2, .error e)
  | (buf2, .ok count) =>
    let buf3 := buf2 ++ u16be p.pkid
    if p.reason = .Success && p.properties.isNone then (buf3, .ok 4)
    else
      let buf4 := buf3 ++ [code p.reason]
      match p.properties with
      | some props =>
        match props.write buf4 with
        | (buf5, .error e) => (buf5, .error e)
        | (buf5, .ok _) => (buf5, .ok (1 + count + p.len))
      | none =>
        match write_remaining_length buf4 0 with
        | (buf5, .error e) => (buf5, .error e)
        | (buf5, .ok _) => (buf5, .ok (1 + count + p.len))

/-- The property-reading loop of `PubCompProperties::read`.  The source
loop advances `cursor` by at least one per iteration and runs only while
`cursor < properties_len`, so `properties_len` bounds the iteration count;
the explicit fuel argument (passed as `properties_len` at the only call
site) makes the recursion structural, and its exhaustion branch is
unreachable from that call site. -/
def readPropsLoop (fuel properties_len cursor : Nat)
    (reason_string : Option (List Nat))
    (user_properties : List (List Nat × List Nat)) (bytes : List Nat) :
    Except CodecError (Option (List Nat) × List (List Nat × List Nat) × List Nat) :=
  if cursor < properties_len then
    match fuel with
    | 0 => .error .MalformedPacket
    | fuel2 + 1 =>
      match read_u8 bytes with
      | .error e => .error e
      | .ok (prop, bytes2) =>
        match property prop with
        | .error e => .error e
        | .ok .ReasonString =>
          match read_mqtt_string bytes2 with
          | .error e => .error e
          | .ok (r, bytes3) =>
            readPropsLoop fuel2 properties_len (cursor + 1 + (2 + r.length))
              (some r) user_properties bytes3
        | .ok .UserProperty =>
          match read_mqtt_string bytes2 with
          | .error e => .error e
          | .ok (key, bytes3) =>
            match read_mqtt_string bytes3 with
            | .error e => .error e
            | .ok (value, bytes4) =>
              readPropsLoop fuel2 properties_len
                (cursor + 1 + (2 + key.length + 2 + value.length))
                reason_string (user_properties ++ [(key, value)]) bytes4
        | .ok _ => .error (.InvalidPropertyType prop)
  else .ok (reason_string, user_properties, bytes)

/-- `PubCompProperties::read`: peek the properties length, consume its
bytes, return `none` for a zero length, else run the property loop and
wrap the result. -/
def PubCompProperties.read (bytes : List Nat) :
    Except CodecError (Option PubCompProperties × List Nat) :=
  match parseVarint bytes with
  | .error e => .error e
  | .ok (pll, plen) =>
    let bytes2 := bytes.drop pll
    if plen = 0 then .ok (none, bytes2)
    else
      match readPropsLoop plen plen 0 none [] bytes2 with
      | .error e => .error e
      | .ok (rs, ups, rest) => .ok (some ⟨rs, ups⟩, rest)

/-- `PubComp::read`: skip the fixed header, read the pkid; remaining
length 2 is the short form, remaining length below 4 carries a reason but
no properties, otherwise the properties block follows the reason byte. -/
def PubComp.read (fixed_header : FixedHeaderM) (bytes : List Nat) :
    Except CodecError PubComp :=
  let bytes1 := bytes.drop fixed_header.fixed_header_len
  match read_u16 bytes1 with
  | .error e => .error e
  | .ok (pkid, bytes2) =>
    if fixed_header.remaining_len = 2 then .ok ⟨pkid, .Success, none⟩
    else match read_u8 bytes2 with
      | .error e => .error e
      | .ok (ack_reason, bytes3) =>
        if fixed_header.remaining_len < 4 then
          match reasonOf ack_reason with
          | .error e => .error e
          | .ok r => .ok ⟨pkid, r, none⟩
        else match PubCompProperties.read bytes3 with
          | .error e => .error e
          | .ok (properties, _) =>
            match reasonOf ack_reason with
            | .error e => .error e
            | .ok r => .ok ⟨pkid, r, properties⟩

/-- Decode pipeline for one PubComp packet: parse the fixed header from
the buffer, then hand buffer and header to `PubComp::read`, exactly as the
v5 packet reader does for a PubComp frame. -/
def readPacket (bytes : List Nat) : Except CodecError PubComp :=
  match parse_fixed_header bytes with
  | .error e => .error e
  | .ok fh => PubComp.read fh bytes

/-! ## Specification-side definitions used by the statements -/

/-- The list of indices of currently registered filters that match a
topic, read off the filter-index table (the authoritative set the
topic-to-filters cache memoizes). -/
def matchingFilters (d : DataLog) (topic : String) : List Nat :=
  (d.filter_indexes.filter (fun p => mqttMatches topic p.1)).map Prod.snd

/-- One data-log operation of the kind quantified over by the cache
invariant: registering a filter or routing a topic. -/
inductive DLOp : Type
  | nno (filter : String)
  | mat (topic : String)
  deriving DecidableEq, Repr

/-- Apply one operation to the data log, discarding the returned value. -/
def dlApply (d : DataLog) : DLOp → DataLog
  | .nno filter => (d.next_native_offset filter).2.2
  | .mat topic => (d.matches topic).2

/-- Apply a sequence of operations left to right. -/
def dlApplySeq (d : DataLog) : List DLOp → DataLog
  | [] => d
  | op :: ops => dlApplySeq (dlApply d op) ops

/-- Cache coherence: every cached topic list is exactly the matching list
recomputed from the filter-index table. -/
def cacheCoherent (d : DataLog) : Prop :=
  ∀ T L, alookup d.publish_filters T = some L → L = matchingFilters d T

/-- Every index stored in the filter-index table is in range of the slab. -/
def idxBounded (d : DataLog) : Prop :=
  ∀ v ∈ d.filter_indexes.map Prod.snd, v < d.native.length

/-- The inductive invariant behind cache correctness: every cached topic
list is the literal recomputed matching list, all stored filter indices
are in range, and no index is stored twice. -/
def dlInv (d : DataLog) : Prop :=
  cacheCoherent d ∧ idxBounded d ∧ (d.filter_indexes.map Prod.snd).Nodup

/-- A read marker is well formed when its cached slowest marker is the
minimum of its subscriber markers (true of every reachable marker). -/
def rmWf (rm : ReadMarker) : Prop :=
  rm.slowest_marker = minOffList (rm.subscriber_markers.map Prod.snd)

/-- The read marker of a filter, a fresh default when none is present yet
(exactly what `register_subscriber` operates on). -/
def rmOf (d : DataLog) (fid : Nat) : ReadMarker :=
  (alookup d.filter_read_markers fid).getD ReadMarker.default

/-- Every read marker held by the data log is well formed. -/
def dlMarkersWf (d : DataLog) : Prop :=
  ∀ p ∈ d.filter_read_markers, rmWf p.2

/-- One `register_subscriber` call: filter id, start cursor, subscriber
id. -/
abbrev RegOp := Nat × Offset × Nat

/-- A register step neither moves an existing subscriber backwards nor
starts a new subscriber below the filter's current slowest marker. -/
def regStepOk (d : DataLog) (op : RegOp) : Prop :=
  match alookup (rmOf d op.1).subscriber_markers op.2.2 with
  | some old => offLe old op.2.1 = true
  | none => optLe (rmOf d op.1).slowest_marker (some op.2.1) = true

/-- Apply one `register_subscriber` call. -/
def regApply (d : DataLog) (op : RegOp) : DataLog :=
  d.register_subscriber op.1 op.2.1 op.2.2

/-- Apply a sequence of `register_subscriber` calls left to right. -/
def regApplySeq (d : DataLog) : List RegOp → DataLog
  | [] => d
  | op :: ops => regApplySeq (regApply d op) ops

/-- Every step of the sequence is valid in the state it runs in. -/
def regSeqOk (d : DataLog) : List RegOp → Prop
  | [] => True
  | op :: ops => regStepOk d op ∧ regSeqOk (regApply d op) ops

/-- An MQTT wire string fits its two-byte length prefix. -/
def strWf (s : List Nat) : Prop := s.length < 65536

/-- Well-formed PubComp properties: every string fits its length prefix. -/
def propsWf (p : PubCompProperties) : Prop :=
  (∀ r, p.reason_string = some r → strWf r) ∧
  (∀ kv ∈ p.user_properties, strWf kv.1 ∧ strWf kv.2)

/-- A valid (wire-representable) PubComp packet: the pkid is a `u16`, the
remaining length fits the four-byte variable-length integer, and every
property string fits its length prefix. -/
def PubComp.wire_ok (p : PubComp) : Prop :=
  p.pkid < 65536 ∧ p.len ≤ 268435455 ∧
  (∀ props, p.properties = some props → propsWf props)

/-- Bytes the properties writer emits for the reason string. -/
def rsBytes : Option (List Nat) → List Nat
  | some r => 31 :: (u16be r.length ++ r)
  | none => []

/-- Bytes the properties writer emits for one user property. -/
def upBytes (kv : List Nat × List Nat) : List Nat :=
  38 :: (u16be kv.1.length ++ kv.1 ++ (u16be kv.2.length ++ kv.2))

/-- Bytes the properties writer emits for a user-property list. -/
def upsBytes : List (List Nat × List Nat) → List Nat
  | [] => []
  | kv :: tl => upBytes kv ++ upsBytes tl

/-- The bytes following pkid in an encoded PubComp: empty in the short
form, else the reason byte and the properties block. -/
def pubCompBody (p : PubComp) : List Nat :=
  if p.reason = .Success && p.properties.isNone then []
  else [code p.reason] ++ (match p.properties with
    | some props => varintBytes 4 props.len
        ++ (rsBytes props.reason_string ++ upsBytes props.user_properties)
    | none => varintBytes 4 0)

/-- The full encoding of a PubComp packet: header byte, remaining length,
pkid, body. -/
def pubCompBytes (p : PubComp) : List Nat :=
  [0x70] ++ varintBytes 4 p.len ++ u16be p.pkid ++ pubCompBody p

/-- Router configuration used by the concrete witnesses (the values of the
source's own unit tests). -/
def exCfg : RouterConfig := ⟨1024, 10, 10, 1024, true, none⟩

/-- A PubComp whose properties block overflows the four-byte
variable-length integer: one user property with a 268435451-byte key. -/
def hugePubComp : PubComp :=
  ⟨1, .Success, some ⟨none, [(List.replicate 268435451 0, [])]⟩⟩

/-! ## Order and minimum lemmas -/

theorem offLe_iff (a b : Offset) :
    offLe a b = true ↔ a.1 < b.1 ∨ (a.1 = b.1 ∧ a.2 ≤ b.2) := by
  simp [offLe]

theorem offLt_iff (a b : Offset) :
    offLt a b = true ↔ a.1 < b.1 ∨ (a.1 = b.1 ∧ a.2 < b.2) := by
  simp [offLt]

theorem offLe_refl (a : Offset) : offLe a a = true := by
  simp [offLe_iff]

theorem offLe_trans {a b c : Offset} (h1 : offLe a b = true)
    (h2 : offLe b c = true) : offLe a c = true := by
  rw [offLe_iff] at *
  omega

theorem offLe_of_not_offLe {a b : Offset} (h : ¬ offLe a b = true) :
    offLe b a = true := by
  rw [offLe_iff] at *
  omega

theorem offMin_le_left (a b : Offset) : offLe (offMin a b) a = true := by
  unfold offMin
  by_cases h : offLe a b = true
  · simp [h, offLe_refl]
  · simp [h, offLe_of_not_offLe h]

theorem offMin_le_right (a b : Offset) : offLe (offMin a b) b = true := by
  unfold offMin
  by_cases h : offLe a b = true
  · simp [h]
  · simp [h, offLe_refl]

theorem offMin_eq_or (a b : Offset) : offMin a b = a ∨ offMin a b = b := by
  unfold offMin
  by_cases h : offLe a b = true <;> simp [h]

theorem minOffList_foldl_spec (l : List Offset) :
    ∀ m : Offset,
      ∃ r, (l.foldl (fun acc x => match acc with
          | none => some x
          | some mm => some (offMin mm x)) (some m)) = some r ∧
        (r = m ∨ r ∈ l) ∧ offLe r m = true ∧ ∀ x ∈ l, offLe r x = true := by
  induction l with
  | nil =>
    intro m
    exact ⟨m, rfl, Or.inl rfl, offLe_refl m, by simp⟩
  | cons x tl ih =>
    intro m
    obtain ⟨r, hr, hmem, hle, hall⟩ := ih (offMin m x)
    refine ⟨r, by simpa using hr, ?_, ?_, ?_⟩
    · rcases hmem with h | h
      · rcases offMin_eq_or m x with he | he <;> rw [he] at h <;> simp [h]
      · simp [h]
    · exact offLe_trans hle (offMin_le_left m x)
    · intro y hy
      rcases List.mem_cons.mp hy with h | h
      · rw [h]
        exact offLe_trans hle (offMin_le_right m x)
      · exact hall y h

theorem minOffList_spec {l : List Offset} {m : Offset}
    (h : minOffList l = some m) : m ∈ l ∧ ∀ x ∈ l, offLe m x = true := by
  cases l with
  | nil => simp [minOffList] at h
  | cons a tl =>
    obtain ⟨r, hr, hmem, hle, hall⟩ := minOffList_foldl_spec tl a
    have : minOffList (a :: tl) = some r := by
      simpa [minOffList] using hr
    rw [this] at h
    injection h with h
    subst h
    constructor
    · rcases hmem with h | h <;> simp [h]
    · intro y hy
      rcases List.mem_cons.mp hy with h | h
      · subst h; exact hle
      · exact hall y h

theorem minOffList_isSome {l : List Offset} (h : l ≠ []) :
    ∃ m, minOffList l = some m := by
  cases l with
  | nil => exact absurd rfl h
  | cons a tl =>
    obtain ⟨r, hr, _, _, _⟩ := minOffList_foldl_spec tl a
    exact ⟨r, by simpa [minOffList] using hr⟩

theorem minOffList_le {l : List Offset} {x : Offset} (hx : x ∈ l) :
    optLe (minOffList l) (some x) = true := by
  obtain ⟨m, hm⟩ := minOffList_isSome (l := l) (by rintro rfl; simp at hx)
  rw [hm]
  exact (minOffList_spec hm).2 x hx

/-! ## Association-list lemmas -/

theorem alookup_aupdate_self {κ α : Type} [DecidableEq κ]
    (l : List (κ × α)) (k : κ) (v : α) :
    alookup (aupdate l k v) k = some v := by
  induction l with
  | nil => simp [aupdate, alookup]
  | cons p tl ih =>
    by_cases h : p.1 = k <;> simp [aupdate, alookup, h, ih]

theorem alookup_aupdate_ne {κ α : Type} [DecidableEq κ]
    (l : List (κ × α)) (k : κ) (v : α) (j : κ) (hj : j ≠ k) :
    alookup (aupdate l k v) j = alookup l j := by
  have hkj : ¬ k = j := fun h => hj h.symm
  induction l with
  | nil => simp [aupdate, alookup, hkj]
  | cons p tl ih =>
    by_cases h : p.1 = k
    · have hpj : ¬ p.1 = j := by rw [h]; exact hkj
      simp [aupdate, alookup, h, hpj, hkj]
    · by_cases h2 : p.1 = j <;> simp [aupdate, alookup, h, h2, hj, ih]

theorem mem_aupdate {κ α : Type} [DecidableEq κ]
    {l : List (κ × α)} {k : κ} {v : α} {p : κ × α}
    (h : p ∈ aupdate l k v) : p = (k, v) ∨ p ∈ l := by
  induction l with
  | nil => simpa [aupdate] using h
  | cons q tl ih =>
    by_cases hq : q.1 = k
    · rw [aupdate] at h
      simp only [hq, if_pos rfl] at h
      rcases List.mem_cons.mp h with h | h
      · left; rw [h, ← hq]
      · right; exact List.mem_cons_of_mem q h
    · rw [aupdate] at h
      simp only [hq, if_neg hq] at h
      rcases List.mem_cons.mp h with h | h
      · right; rw [h]; exact List.mem_cons_self q tl
      · rcases ih h with h | h
        · left; exact h
        · right; exact List.mem_cons_of_mem q h

theorem aupdate_ne_nil {κ α : Type} [DecidableEq κ]
    (l : List (κ × α)) (k : κ) (v : α) : aupdate l k v ≠ [] := by
  cases l with
  | nil => simp [aupdate]
  | cons p tl =>
    rw [aupdate]
    split <;> simp

theorem alookup_mem {κ α : Type} [DecidableEq κ]
    {l : List (κ × α)} {k : κ} {v : α} (h : alookup l k = some v) :
    (k, v) ∈ l := by
  induction l with
  | nil => simp [alookup] at h
  | cons p tl ih =>
    rw [alookup] at h
    by_cases hp : p.1 = k
    · rw [if_pos hp] at h
      injection h with h
      have hkv : (k, v) = p := by rw [← hp, ← h]
      rw [hkv]
      exact List.mem_cons_self p tl
    · rw [if_neg hp] at h
      exact List.mem_cons_of_mem p (ih h)

/-! ## Claims C3, C4, C10 -/

/-- Claim C3: the claim says `insert_pending_acks` enqueues a deferred-ack
record (and releases the puback immediately when the offset map is empty);
the source body is only the comment `// do something`, so the call leaves
the ack log unchanged for every input: no deferred-ack record is created
and no puback reaches the committed queue. -/
theorem insert_pending_acks_is_noop (a : AckLog) (p : PubAckM)
    (offset_map : List (Nat × Offset)) :
    a.insert_pending_acks p offset_map = a := rfl

/-- Concrete run of claim C3's theorem: a QoS-1 puback with one matching
filter leaves a fresh ack log entirely unchanged. -/
theorem insert_pending_acks_is_noop_witness :
    AckLog.new.insert_pending_acks ⟨1⟩ [(0, (0, 0))] = AckLog.new :=
  insert_pending_acks_is_noop AckLog.new ⟨1⟩ [(0, (0, 0))]

/-- Claim C4: `update_subscriber_marker` sets the named subscriber's
marker to the given offset (last write wins), leaves every other
subscriber's marker unchanged, recomputes the slowest marker as a minimum
that is attained by some current subscriber and bounds every subscriber's
marker from below, and returns `true` exactly when the slowest marker
strictly advanced past its value before the call (`None` ordering below
every offset). -/
theorem update_subscriber_marker_correct (rm : ReadMarker) (id : Nat)
    (off : Offset) :
    alookup ((rm.update_subscriber_marker id off).1).subscriber_markers id
      = some off
    ∧ (∀ j, j ≠ id →
        alookup ((rm.update_subscriber_marker id off).1).subscriber_markers j
          = alookup rm.subscriber_markers j)
    ∧ (∃ j m, (j, m) ∈ ((rm.update_subscriber_marker id off).1).subscriber_markers
        ∧ ((rm.update_subscriber_marker id off).1).slowest_marker = some m
        ∧ ∀ p ∈ ((rm.update_subscriber_marker id off).1).subscriber_markers,
            offLe m p.2 = true)
    ∧ ((rm.update_subscriber_marker id off).2 = true
        ↔ optLt rm.slowest_marker
            ((rm.update_subscriber_marker id off).1).slowest_marker = true) := by
  have hmk : ((rm.update_subscriber_marker id off).1).subscriber_markers
      = aupdate rm.subscriber_markers id off := rfl
  have hsl : ((rm.update_subscriber_marker id off).1).slowest_marker
      = minOffList ((aupdate rm.subscriber_markers id off).map Prod.snd) := rfl
  refine ⟨?_, ?_, ?_, ?_⟩
  · rw [hmk]
    exact alookup_aupdate_self rm.subscriber_markers id off
  · intro j hj
    rw [hmk]
    exact alookup_aupdate_ne rm.subscriber_markers id off j hj
  · have hne : (aupdate rm.subscriber_markers id off).map Prod.snd ≠ [] := by
      intro h
      exact aupdate_ne_nil rm.subscriber_markers id off (List.map_eq_nil_iff.mp h)
    obtain ⟨m, hm⟩ := minOffList_isSome hne
    obtain ⟨hmem, hall⟩ := minOffList_spec hm
    obtain ⟨p, hp, hpm⟩ := List.mem_map.mp hmem
    refine ⟨p.1, m, ?_, ?_, ?_⟩
    · rw [hmk]
      have : p = (p.1, m) := by rw [← hpm]
      rw [← this]
      exact hp
    · rw [hsl, hm]
    · intro q hq
      rw [hmk] at hq
      exact hall q.2 (List.mem_map.mpr ⟨q, hq, rfl⟩)
  · rw [hsl]
    exact Iff.rfl

/-- Concrete run of claim C4's theorem: update subscriber 2 of a marker
that currently tracks subscriber 1 at offset (0, 0). -/
theorem update_subscriber_marker_correct_witness :
    alookup (((ReadMarker.mk [(1, (0, 0))] (some (0, 0))).update_subscriber_marker
        2 (1, 1)).1).subscriber_markers 2 = some (1, 1)
    ∧ (∀ j, j ≠ 2 →
        alookup (((ReadMarker.mk [(1, (0, 0))] (some (0, 0))).update_subscriber_marker
            2 (1, 1)).1).subscriber_markers j
          = alookup (ReadMarker.mk [(1, (0, 0))] (some (0, 0))).subscriber_markers j)
    ∧ (∃ j m, (j, m) ∈ (((ReadMarker.mk [(1, (0, 0))] (some (0, 0))).update_subscriber_marker
          2 (1, 1)).1).subscriber_markers
        ∧ (((ReadMarker.mk [(1, (0, 0))] (some (0, 0))).update_subscriber_marker
            2 (1, 1)).1).slowest_marker = some m
        ∧ ∀ p ∈ (((ReadMarker.mk [(1, (0, 0))] (some (0, 0))).update_subscriber_marker
            2 (1, 1)).1).subscriber_markers, offLe m p.2 = true)
    ∧ ((((ReadMarker.mk [(1, (0, 0))] (some (0, 0))).update_subscriber_marker
          2 (1, 1)).2) = true
        ↔ optLt (ReadMarker.mk [(1, (0, 0))] (some (0, 0))).slowest_marker
            ((((ReadMarker.mk [(1, (0, 0))] (some (0, 0))).update_subscriber_marker
              2 (1, 1)).1)).slowest_marker = true) :=
  update_subscriber_marker_correct (ReadMarker.mk [(1, (0, 0))] (some (0, 0))) 2 (1, 1)

/-- Claim C10: `Data::append` increments the filter's meter count by one,
adds the item's size to the meter's total size, stores the offset returned
by the underlying commit-log append in the meter's append offset, and
returns that same offset. -/
theorem data_append_meter {T : Type} [StorageC T] (e : DataEntry T) (item : T)
    (notifications : List (Nat × DataRequest)) :
    ((e.append item notifications).1).meter.count = e.meter.count + 1
    ∧ ((e.append item notifications).1).meter.total_size
        = e.meter.total_size + StorageC.size item
    ∧ ((e.append item notifications).1).meter.append_offset
        = (e.log.append item).2
    ∧ (e.append item notifications).2.2.1 = (e.log.append item).2 := by
  rcases hp : e.log.append item with ⟨log2, off⟩
  rcases ht : waitersTake e.waiters with ⟨taken, waiters2⟩
  cases taken <;>
    simp [DataEntry.append, hp, ht]

/-- Concrete run of claim C10's theorem: append one publish of size 3 to a
fresh filter entry. -/
theorem data_append_meter_witness :
    (((DataEntry.new PubM "f" 10 10).append (PubM.mk "t" [1, 2] 0 false 0) []).1).meter.count
      = (DataEntry.new PubM "f" 10 10).meter.count + 1
    ∧ (((DataEntry.new PubM "f" 10 10).append (PubM.mk "t" [1, 2] 0 false 0) []).1).meter.total_size
      = (DataEntry.new PubM "f" 10 10).meter.total_size
          + StorageC.size (PubM.mk "t" [1, 2] 0 false 0)
    ∧ (((DataEntry.new PubM "f" 10 10).append (PubM.mk "t" [1, 2] 0 false 0) []).1).meter.append_offset
      = ((DataEntry.new PubM "f" 10 10).log.append (PubM.mk "t" [1, 2] 0 false 0)).2
    ∧ ((DataEntry.new PubM "f" 10 10).append (PubM.mk "t" [1, 2] 0 false 0) []).2.2.1
      = ((DataEntry.new PubM "f" 10 10).log.append (PubM.mk "t" [1, 2] 0 false 0)).2 :=
  data_append_meter (DataEntry.new PubM "f" 10 10) (PubM.mk "t" [1, 2] 0 false 0) []

/-! ## Claim C2: cache-miss behavior of `DataLog::matches` -/

/-- Claim C2, counterexample to the claim as stated: on a data log with no
registered filters, `matches "a"` returns the empty list but does not
insert it into the topic-to-filters cache (the source only inserts when
the list is non-empty), while the claim says the list is inserted even
when empty. -/
theorem matches_empty_not_cached :
    ((DataLog.new exCfg).matches "a").1 = some []
    ∧ alookup (((DataLog.new exCfg).matches "a").2).publish_filters "a" = none := by
  constructor <;> decide

/-- Claim C2 as amended: for a topic missing from the cache, `matches`
scans all registered filters, returns the list of matching indices, and
inserts it into the cache only when it is non-empty; when the list is
empty the data log is left unchanged (nothing is cached). -/
theorem matches_miss_behavior (d : DataLog) (topic : String)
    (h : alookup d.publish_filters topic = none) :
    (d.matches topic).1 = some (matchingFilters d topic)
    ∧ (matchingFilters d topic ≠ [] →
        alookup ((d.matches topic).2).publish_filters topic
          = some (matchingFilters d topic))
    ∧ (matchingFilters d topic = [] → (d.matches topic).2 = d) := by
  have hv : (d.filter_indexes.filter (fun p => mqttMatches topic p.1)).map Prod.snd
      = matchingFilters d topic := rfl
  by_cases hc : matchingFilters d topic = []
  · refine ⟨?_, ?_, ?_⟩ <;>
      simp [DataLog.matches, h, hv, hc]
  · refine ⟨?_, ?_, ?_⟩ <;>
      simp [DataLog.matches, h, hv, hc, alookup_aupdate_self]

/-- Concrete run of claim C2's amended theorem: one wildcard filter
`topic/+` is registered, the topic `topic/a` is not yet cached, and the
computed list `[0]` is cached and returned. -/
theorem matches_miss_behavior_witness :
    ((((DataLog.new exCfg).next_native_offset "topic/+").2.2).matches "topic/a").1
      = some (matchingFilters (((DataLog.new exCfg).next_native_offset "topic/+").2.2) "topic/a")
    ∧ (matchingFilters (((DataLog.new exCfg).next_native_offset "topic/+").2.2) "topic/a" ≠ [] →
        alookup (((((DataLog.new exCfg).next_native_offset "topic/+").2.2).matches
            "topic/a").2).publish_filters "topic/a"
          = some (matchingFilters (((DataLog.new exCfg).next_native_offset "topic/+").2.2) "topic/a"))
    ∧ (matchingFilters (((DataLog.new exCfg).next_native_offset "topic/+").2.2) "topic/a" = [] →
        ((((DataLog.new exCfg).next_native_offset "topic/+").2.2).matches "topic/a").2
          = ((DataLog.new exCfg).next_native_offset "topic/+").2.2) :=
  matches_miss_behavior (((DataLog.new exCfg).next_native_offset "topic/+").2.2)
    "topic/a" (by decide)

/-! ## Claim C9: waiter removal and registration order -/

theorem findIdx?_spec {α : Type} (p : α → Bool) :
    ∀ (l : List α) (i : Nat), l.findIdx? p = some i →
      i < l.length ∧ ∀ b, p (l.getD i b) = true := by
  intro l
  induction l with
  | nil => intro i h; simp [List.findIdx?_nil] at h
  | cons a tl ih =>
    intro i h
    rw [List.findIdx?_cons, List.findIdx?_succ] at h
    by_cases hpa : p a = true
    · rw [if_pos hpa] at h
      injection h with h
      subst h
      exact ⟨Nat.succ_pos _, fun b => hpa⟩
    · rw [if_neg hpa] at h
      rcases Option.map_eq_some'.mp h with ⟨j, hj, hji⟩
      obtain ⟨hlt, hget⟩ := ih j hj
      subst hji
      refine ⟨by simpa using Nat.succ_lt_succ hlt, ?_⟩
      intro b
      simpa [List.getD] using hget b

theorem swap_remove_back_perm {α : Type} :
    ∀ (l : List α) (i : Nat) (b : α), l.getLast? = some b → i < l.length →
      List.Perm (l.getD i b :: (l.set i b).dropLast) l := by
  intro l
  induction l with
  | nil => intro i b _ hi; simp at hi
  | cons a tl ih =>
    intro i b hb hi
    cases i with
    | zero =>
      cases tl with
      | nil =>
        have hba : b = a := by
          simp [List.getLast?] at hb
          exact hb.symm
        subst hba
        simp
      | cons c tl2 =>
        rw [List.getLast?_cons_cons] at hb
        have hgd : (a :: c :: tl2).getD 0 b = a := rfl
        have hset : (a :: c :: tl2).set 0 b = b :: c :: tl2 := rfl
        rw [hgd, hset, List.dropLast_cons₂]
        refine List.Perm.cons a ?_
        have hrest : (c :: tl2).dropLast ++ [b] = c :: tl2 :=
          List.dropLast_append_getLast? b hb
        have hps : List.Perm (b :: (c :: tl2).dropLast)
            ((c :: tl2).dropLast ++ [b]) := (List.perm_append_singleton b _).symm
        refine hps.trans ?_
        rw [hrest]
    | succ i2 =>
      have hi2 : i2 < tl.length := by simpa using hi
      have htlne : tl ≠ [] := by
        intro h
        rw [h] at hi2
        simp at hi2
      have hbtl : tl.getLast? = some b := by
        cases tl with
        | nil => exact absurd rfl htlne
        | cons c tl2 => rw [← List.getLast?_cons_cons (a := a)]; exact hb
      have hgd : (a :: tl).getD (i2 + 1) b = tl.getD i2 b := rfl
      have hset : (a :: tl).set (i2 + 1) b = a :: tl.set i2 b := rfl
      have hsetne : tl.set i2 b ≠ [] := by
        intro h
        have : (tl.set i2 b).length = 0 := by rw [h]; rfl
        rw [List.length_set] at this
        omega
      rw [hgd, hset]
      have hdl : (a :: tl.set i2 b).dropLast = a :: (tl.set i2 b).dropLast := by
        cases hs : tl.set i2 b with
        | nil => exact absurd hs hsetne
        | cons c tl2 => rw [List.dropLast_cons₂]
      rw [hdl]
      exact List.Perm.trans (List.Perm.swap a (tl.getD i2 b) _)
        (List.Perm.cons a (ih i2 b hbtl hi2))

/-- Claim C9, counterexample to the claim as stated: with waiters
registered in order by connections 1, 2, 3, removing connection 1's waiter
leaves the remaining waiters in order 3, 2 — not their original
registration order 2, 3 — because the source removes with
`VecDeque::swap_remove_back`, which moves the back waiter into the removed
slot. -/
theorem remove_waiters_reorders :
    (((((((dlApplySeq (DataLog.new exCfg) [DLOp.nno "f"]).park 1
        ⟨"f", 0, (0, 0)⟩).park 2 ⟨"f", 0, (0, 0)⟩).park 3
        ⟨"f", 0, (0, 0)⟩).remove_waiters_for_id 1 "f").2).entryAt 0).waiters.map
        Prod.fst = [3, 2]
    ∧ ([3, 2] : List Nat) ≠ [2, 3] := by
  constructor <;> decide

/-- Claim C9 as amended: `remove_waiters_for_id` removes exactly the first
waiter of the given connection; the remaining waiters are the original
waiter set minus that entry as a multiset, but not necessarily in their
original registration order (the back entry is swapped into the removed
position). -/
theorem remove_waiters_swap_semantics (d : DataLog) (id : Nat)
    (filter : String) (idx i : Nat)
    (hidx : alookup d.filter_indexes filter = some idx)
    (hfind : (d.entryAt idx).waiters.findIdx? (fun e => e.1 = id) = some i) :
    ∃ w : Nat × DataRequest,
      (d.remove_waiters_for_id id filter).1 = some w.2
      ∧ w.1 = id
      ∧ List.Perm (w :: (((d.remove_waiters_for_id id filter).2).entryAt idx).waiters)
          ((d.entryAt idx).waiters) := by
  have hwne : (d.entryAt idx).waiters ≠ [] := by
    intro h
    rw [h] at hfind
    simp [List.findIdx?_nil] at hfind
  obtain ⟨hil, hpget⟩ := findIdx?_spec _ ((d.entryAt idx).waiters) i hfind
  cases hlast : (d.entryAt idx).waiters.getLast? with
  | none => exact absurd (List.getLast?_eq_none_iff.mp hlast) hwne
  | some lastw =>
    have hidxlt : idx < d.native.length := by
      by_contra hge
      have hdef : d.entryAt idx = default := by
        unfold DataLog.entryAt
        exact List.getD_eq_default _ _ (Nat.le_of_not_lt hge)
      rw [hdef] at hwne
      exact hwne rfl
    refine ⟨(d.entryAt idx).waiters.getD i lastw, ?_, ?_, ?_⟩
    · simp [DataLog.remove_waiters_for_id, hidx, hfind, hlast]
    · have := hpget lastw
      exact of_decide_eq_true this
    · have hres : (((d.remove_waiters_for_id id filter).2).entryAt idx).waiters
          = (((d.entryAt idx).waiters.set i lastw)).dropLast := by
        simp only [DataLog.remove_waiters_for_id, hidx, hfind, hlast]
        unfold DataLog.entryAt
        simp [List.getD, List.getElem?_set_self', List.getElem?_eq_getElem, hidxlt]
      rw [hres]
      exact swap_remove_back_perm ((d.entryAt idx).waiters) i lastw hlast hil

/-- Concrete run of claim C9's amended theorem: waiters of connections 1,
2, 3 on filter `f`; removing connection 1's waiter returns it and leaves a
permutation of the other two. -/
theorem remove_waiters_swap_semantics_witness :
    ∃ w : Nat × DataRequest,
      (((((dlApplySeq (DataLog.new exCfg) [DLOp.nno "f"]).park 1
          ⟨"f", 0, (0, 0)⟩).park 2 ⟨"f", 0, (0, 0)⟩).park 3
          ⟨"f", 0, (0, 0)⟩).remove_waiters_for_id 1 "f").1 = some w.2
      ∧ w.1 = 1
      ∧ List.Perm (w :: ((((((((dlApplySeq (DataLog.new exCfg) [DLOp.nno "f"]).park 1
          ⟨"f", 0, (0, 0)⟩).park 2 ⟨"f", 0, (0, 0)⟩).park 3
          ⟨"f", 0, (0, 0)⟩).remove_waiters_for_id 1 "f").2).entryAt 0).waiters))
          ((((((dlApplySeq (DataLog.new exCfg) [DLOp.nno "f"]).park 1
          ⟨"f", 0, (0, 0)⟩).park 2 ⟨"f", 0, (0, 0)⟩).park 3
          ⟨"f", 0, (0, 0)⟩).entryAt 0).waiters) :=
  remove_waiters_swap_semantics
    ((((dlApplySeq (DataLog.new exCfg) [DLOp.nno "f"]).park 1
        ⟨"f", 0, (0, 0)⟩).park 2 ⟨"f", 0, (0, 0)⟩).park 3 ⟨"f", 0, (0, 0)⟩)
    1 "f" 0 0 (by decide) (by decide)

/-! ## Claim C5: monotonicity of the slowest read marker -/

theorem optLe_refl (a : Option Offset) : optLe a a = true := by
  cases a with
  | none => rfl
  | some x => exact offLe_refl x

theorem optLe_trans {a b c : Option Offset} (h1 : optLe a b = true)
    (h2 : optLe b c = true) : optLe a c = true := by
  cases a with
  | none => rfl
  | some x =>
    cases b with
    | none => simp [optLe] at h1
    | some y =>
      cases c with
      | none => simp [optLe] at h2
      | some z => exact offLe_trans h1 h2

theorem optLe_minOffList {l1 l2 : List Offset} (h2 : l2 ≠ [])
    (h : ∀ y ∈ l2, ∃ x ∈ l1, offLe x y = true) :
    optLe (minOffList l1) (minOffList l2) = true := by
  obtain ⟨m2, hm2⟩ := minOffList_isSome h2
  rw [hm2]
  obtain ⟨hm2mem, _⟩ := minOffList_spec hm2
  obtain ⟨x, hx, hxle⟩ := h m2 hm2mem
  have hlx := minOffList_le hx
  cases hl1 : minOffList l1 with
  | none => rfl
  | some m1 =>
    rw [hl1] at hlx
    exact offLe_trans hlx hxle

/-- One well-formedness-preserving fact: `update_subscriber_marker` leaves
the cached slowest marker equal to the recomputed minimum. -/
theorem rm_update_wf (rm : ReadMarker) (id : Nat) (off : Offset) :
    rmWf ((rm.update_subscriber_marker id off).1) := rfl

/-- Single step: a valid update (existing subscriber not moved backwards,
or new subscriber at or above the current slowest) never decreases the
slowest marker of a well-formed read marker. -/
theorem rm_update_mono (rm : ReadMarker) (id : Nat) (off : Offset)
    (hwf : rmWf rm)
    (hok : match alookup rm.subscriber_markers id with
      | some old => offLe old off = true
      | none => optLe rm.slowest_marker (some off) = true) :
    optLe rm.slowest_marker
      ((rm.update_subscriber_marker id off).1).slowest_marker = true := by
  have hnew : ((rm.update_subscriber_marker id off).1).slowest_marker
      = minOffList ((aupdate rm.subscriber_markers id off).map Prod.snd) := rfl
  rw [hwf, hnew]
  by_cases hm : rm.subscriber_markers = []
  · rw [hm]
    rfl
  · apply optLe_minOffList
    · intro hnil
      exact aupdate_ne_nil rm.subscriber_markers id off (List.map_eq_nil_iff.mp hnil)
    · intro y hy
      obtain ⟨p, hp, hpy⟩ := List.mem_map.mp hy
      rcases mem_aupdate hp with hpe | hpmem
      · subst hpe
        have hoy : off = y := hpy
        cases hlk : alookup rm.subscriber_markers id with
        | some old =>
          rw [hlk] at hok
          refine ⟨old, List.mem_map.mpr ⟨(id, old), alookup_mem hlk, rfl⟩, ?_⟩
          rw [← hoy]
          exact hok
        | none =>
          rw [hlk] at hok
          rw [hwf] at hok
          have hvne : rm.subscriber_markers.map Prod.snd ≠ [] := by
            intro h
            exact hm (List.map_eq_nil_iff.mp h)
          obtain ⟨m, hmin⟩ := minOffList_isSome hvne
          obtain ⟨hmmem, _⟩ := minOffList_spec hmin
          rw [hmin] at hok
          refine ⟨m, hmmem, ?_⟩
          rw [← hoy]
          exact hok
      · exact ⟨y, List.mem_map.mpr ⟨p, hpmem, hpy⟩, offLe_refl y⟩

/-- The read marker `register_subscriber` leaves at the registered filter. -/
theorem rmOf_register_self (d : DataLog) (fid : Nat) (off : Offset) (sid : Nat) :
    rmOf (d.register_subscriber fid off sid) fid
      = ((rmOf d fid).update_subscriber_marker sid off).1 := by
  unfold rmOf DataLog.register_subscriber
  simp [alookup_aupdate_self]

/-- `register_subscriber` does not touch the read markers of other
filters. -/
theorem rmOf_register_other (d : DataLog) (fid : Nat) (off : Offset)
    (sid gid : Nat) (h : gid ≠ fid) :
    rmOf (d.register_subscriber fid off sid) gid = rmOf d gid := by
  unfold rmOf DataLog.register_subscriber
  simp [alookup_aupdate_ne _ _ _ _ h]

/-- `register_subscriber` preserves well-formedness of all read markers. -/
theorem register_preserves_wf (d : DataLog) (fid : Nat) (off : Offset)
    (sid : Nat) (h : dlMarkersWf d) :
    dlMarkersWf (d.register_subscriber fid off sid) := by
  intro p hp
  unfold DataLog.register_subscriber at hp
  simp only at hp
  rcases mem_aupdate hp with hpe | hpmem
  · rw [hpe]
    exact rm_update_wf _ _ _
  · exact h p hpmem

/-- Every read marker the data log can hand to `register_subscriber` is
well formed when the log's markers are. -/
theorem rmOf_wf (d : DataLog) (fid : Nat) (h : dlMarkersWf d) :
    rmWf (rmOf d fid) := by
  unfold rmOf
  cases hlk : alookup d.filter_read_markers fid with
  | none => rfl
  | some rm => exact h (fid, rm) (alookup_mem hlk)

/-- Claim C5, counterexample to the claim as stated: registering
subscriber 1 at offset (5,0) and then adding subscriber 2 at offset (0,0)
— a sequence consisting only of adding subscribers — strictly decreases
the filter's slowest marker from (5,0) to (0,0). -/
theorem register_slow_subscriber_decreases :
    (rmOf ((DataLog.new exCfg).register_subscriber 0 (5, 0) 1) 0).get_slowest_marker
      = some (5, 0)
    ∧ (rmOf (((DataLog.new exCfg).register_subscriber 0 (5, 0) 1).register_subscriber
        0 (0, 0) 2) 0).get_slowest_marker = some (0, 0)
    ∧ optLt (some (0, 0)) (some (5, 0)) = true := by
  refine ⟨?_, ?_, ?_⟩ <;> decide

/-- Claim C5 as amended: over any sequence of `register_subscriber` calls
in which an already-registered subscriber is never moved backwards and
every newly added subscriber starts at or above its filter's current
slowest marker, the slowest marker of every filter never decreases
(registering a new subscriber below the current slowest strictly
decreases it, as the counterexample shows). -/
theorem slowest_monotone_under_valid_registers (d : DataLog)
    (ops : List RegOp) (fid : Nat)
    (hwf : dlMarkersWf d) (hok : regSeqOk d ops) :
    optLe (rmOf d fid).get_slowest_marker
      (rmOf (regApplySeq d ops) fid).get_slowest_marker = true := by
  induction ops generalizing d with
  | nil => exact optLe_refl _
  | cons op ops ih =>
    obtain ⟨hstep, hrest⟩ := hok
    have hwf2 : dlMarkersWf (regApply d op) :=
      register_preserves_wf d op.1 op.2.1 op.2.2 hwf
    have h1 : optLe (rmOf d fid).get_slowest_marker
        (rmOf (regApply d op) fid).get_slowest_marker = true := by
      by_cases hf : fid = op.1
      · subst hf
        unfold regApply
        rw [rmOf_register_self]
        exact rm_update_mono (rmOf d op.1) op.2.2 op.2.1 (rmOf_wf d op.1 hwf) hstep
      · unfold regApply
        rw [rmOf_register_other d op.1 op.2.1 op.2.2 fid hf]
        exact optLe_refl _
    exact optLe_trans h1 (ih (regApply d op) hwf2 hrest)

/-- Concrete run of claim C5's amended theorem: subscriber 1 joins at
(5,0), advances to (6,0), and subscriber 2 joins at (6,0); the slowest
marker of filter 0 does not decrease. -/
theorem slowest_monotone_under_valid_registers_witness :
    optLe (rmOf (DataLog.new exCfg) 0).get_slowest_marker
      (rmOf (regApplySeq (DataLog.new exCfg)
        [(0, (5, 0), 1), (0, (6, 0), 1), (0, (6, 0), 2)]) 0).get_slowest_marker
      = true :=
  slowest_monotone_under_valid_registers (DataLog.new exCfg)
    [(0, (5, 0), 1), (0, (6, 0), 1), (0, (6, 0), 2)] 0
    (fun p hp => nomatch hp) ⟨rfl, rfl, rfl, trivial⟩

/-! ## Claim C1: correctness of the topic-to-filters cache -/

theorem matchingFilters_publish_only (d : DataLog) (pf : List (String × List Nat))
    (T : String) :
    matchingFilters { d with publish_filters := pf } T = matchingFilters d T := rfl

theorem alookup_map_push (pf : List (String × List Nat)) (f : String)
    (idx : Nat) (T : String) :
    alookup (pf.map (fun e => if mqttMatches e.1 f then (e.1, e.2 ++ [idx]) else e)) T
      = (alookup pf T).map (fun L => if mqttMatches T f then L ++ [idx] else L) := by
  induction pf with
  | nil => rfl
  | cons e tl ih =>
    obtain ⟨k, v⟩ := e
    simp only [List.map_cons]
    by_cases hm : mqttMatches k f = true
    · rw [if_pos hm]
      by_cases he : k = T
      · subst he
        simp [alookup, hm]
      · simp [alookup, he, ih]
    · rw [if_neg hm]
      rw [Bool.not_eq_true] at hm
      by_cases he : k = T
      · subst he
        simp [alookup, hm]
      · simp [alookup, he, ih]

theorem matchList_append (fi : List (String × Nat)) (f : String) (idx : Nat)
    (T : String) :
    (((fi ++ [(f, idx)]).filter (fun p => mqttMatches T p.1)).map Prod.snd)
      = ((fi.filter (fun p => mqttMatches T p.1)).map Prod.snd)
        ++ (if mqttMatches T f then [idx] else []) := by
  rw [List.filter_append, List.map_append]
  by_cases hm : mqttMatches T f = true <;> simp [hm]

theorem dlInv_new (cfg : RouterConfig) : dlInv (DataLog.new cfg) := by
  refine ⟨?_, ?_, ?_⟩
  · intro T L hT
    simp [DataLog.new, alookup] at hT
  · have key : ∀ (fs : List String) (acc : List (DataEntry PubM) × List (String × Nat)),
        (∀ v ∈ acc.2.map Prod.snd, v < acc.1.length) →
        (∀ v ∈ (fs.foldl (fun acc filter =>
            (acc.1 ++ [DataEntry.new PubM filter cfg.max_segment_size
              cfg.max_segment_count], acc.2 ++ [(filter, acc.1.length)])) acc).2.map
            Prod.snd,
          v < (fs.foldl (fun acc filter =>
            (acc.1 ++ [DataEntry.new PubM filter cfg.max_segment_size
              cfg.max_segment_count], acc.2 ++ [(filter, acc.1.length)])) acc).1.length) := by
      intro fs
      induction fs with
      | nil => intro acc h; exact h
      | cons f tl ih =>
        intro acc h
        apply ih
        intro v hv
        simp only [List.map_append, List.mem_append] at hv
        rcases hv with hv | hv
        · have := h v hv
          simp only [List.length_append, List.length_cons]
          omega
        · simp at hv
          subst hv
          simp
        
    intro v hv
    exact key _ ([], []) (by simp) v hv
  · have key : ∀ (fs : List String) (acc : List (DataEntry PubM) × List (String × Nat)),
        (∀ v ∈ acc.2.map Prod.snd, v < acc.1.length) →
        (acc.2.map Prod.snd).Nodup →
        ((fs.foldl (fun acc filter =>
            (acc.1 ++ [DataEntry.new PubM filter cfg.max_segment_size
              cfg.max_segment_count], acc.2 ++ [(filter, acc.1.length)])) acc).2.map
            Prod.snd).Nodup := by
      intro fs
      induction fs with
      | nil => intro acc _ h2; exact h2
      | cons f tl ih =>
        intro acc h h2
        apply ih
        · intro v hv
          simp only [List.map_append, List.mem_append] at hv
          rcases hv with hv | hv
          · have := h v hv
            simp only [List.length_append, List.length_cons]
            omega
          · simp at hv
            subst hv
            simp
        · rw [List.map_append]
          apply List.Nodup.append h2 (by simp)
          intro v hv1 hv2
          simp at hv2
          subst hv2
          exact absurd (h _ hv1) (by omega)
    exact key _ ([], []) (by simp) (by simp)

theorem dlInv_matches (d : DataLog) (t : String) (h : dlInv d) :
    dlInv ((d.matches t).2) := by
  obtain ⟨hc, hb, hn⟩ := h
  have hv : (d.filter_indexes.filter (fun p => mqttMatches t p.1)).map Prod.snd
      = matchingFilters d t := rfl
  cases hlk : alookup d.publish_filters t with
  | some v =>
    have hd2 : (d.matches t).2 = d := by
      simp [DataLog.matches, hlk]
    rw [hd2]
    exact ⟨hc, hb, hn⟩
  | none =>
    by_cases he : matchingFilters d t = []
    · have hd2 : (d.matches t).2 = d := by
        simp [DataLog.matches, hlk, hv, he]
      rw [hd2]
      exact ⟨hc, hb, hn⟩
    · have hd2 : (d.matches t).2
          = { d with publish_filters := aupdate d.publish_filters t (matchingFilters d t) } := by
        simp [DataLog.matches, hlk, hv, he]
      rw [hd2]
      refine ⟨?_, hb, hn⟩
      intro T L hT
      rw [matchingFilters_publish_only]
      by_cases hTt : T = t
      · subst hTt
        rw [show ({ d with publish_filters := aupdate d.publish_filters T (matchingFilters d T) } : DataLog).publish_filters = aupdate d.publish_filters T (matchingFilters d T) from rfl,
          alookup_aupdate_self] at hT
        injection hT with hT
        exact hT.symm
      · rw [show ({ d with publish_filters := aupdate d.publish_filters t (matchingFilters d t) } : DataLog).publish_filters = aupdate d.publish_filters t (matchingFilters d t) from rfl,
          alookup_aupdate_ne _ _ _ _ hTt] at hT
        exact hc T L hT

theorem dlInv_nno (d : DataLog) (f : String) (h : dlInv d) :
    dlInv ((d.next_native_offset f).2.2) := by
  obtain ⟨hc, hb, hn⟩ := h
  cases hlk : alookup d.filter_indexes f with
  | some idx =>
    have hd2 : (d.next_native_offset f).2.2 = d := by
      simp [DataLog.next_native_offset, hlk]
    rw [hd2]
    exact ⟨hc, hb, hn⟩
  | none =>
    have hd2 : (d.next_native_offset f).2.2
        = { d with
            native := d.native ++ [DataEntry.new PubM f d.config.max_segment_size
              d.config.max_segment_count],
            filter_indexes := d.filter_indexes ++ [(f, d.native.length)],
            publish_filters := d.publish_filters.map (fun e =>
              if mqttMatches e.1 f then (e.1, e.2 ++ [d.native.length]) else e) } := by
      simp [DataLog.next_native_offset, hlk]
    rw [hd2]
    refine ⟨?_, ?_, ?_⟩
    · intro T L hT
      simp only [alookup_map_push] at hT
      rcases Option.map_eq_some'.mp hT with ⟨L0, hL0, hfn⟩
      have hL0m : L0 = matchingFilters d T := hc T L0 hL0
      show L = (((d.filter_indexes ++ [(f, d.native.length)]).filter
        (fun p => mqttMatches T p.1)).map Prod.snd)
      rw [matchList_append]
      by_cases hm : mqttMatches T f = true
      · rw [if_pos hm] at hfn ⊢
        rw [← hfn, hL0m]
        rfl
      · rw [if_neg hm] at hfn ⊢
        rw [← hfn, hL0m]
        simp [matchingFilters]
    · intro v hv
      simp only [List.map_append, List.mem_append] at hv
      show v < (d.native ++ [_]).length
      rw [List.length_append]
      rcases hv with hv | hv
      · have := hb v hv
        simp only [List.length_cons]
        omega
      · simp at hv
        subst hv
        simp
    · show ((d.filter_indexes ++ [(f, d.native.length)]).map Prod.snd).Nodup
      rw [List.map_append]
      apply List.Nodup.append hn (by simp)
      intro v hv1 hv2
      simp at hv2
      subst hv2
      exact absurd (hb _ hv1) (by omega)

theorem dlInv_applySeq (d : DataLog) (ops : List DLOp) (h : dlInv d) :
    dlInv (dlApplySeq d ops) := by
  induction ops generalizing d with
  | nil => exact h
  | cons op ops ih =>
    cases op with
    | nno f => exact ih _ (dlInv_nno d f h)
    | mat t => exact ih _ (dlInv_matches d t h)

/-- Claim C1: after any sequence of `next_native_offset` and `matches`
calls starting from a fresh data log, every topic `T` cached with list `L`
satisfies: `L` has no duplicates and contains exactly the indices `i` such
that some registered filter `f` with index `i` matches `T`; in particular,
registering a new (previously absent) filter that matches `T` puts the
newly assigned index into `T`'s cached list. -/
theorem cache_correct (cfg : RouterConfig) (ops : List DLOp) (T : String)
    (L : List Nat)
    (hL : alookup (dlApplySeq (DataLog.new cfg) ops).publish_filters T = some L) :
    L.Nodup
    ∧ (∀ i, i ∈ L ↔ ∃ f, (f, i) ∈ (dlApplySeq (DataLog.new cfg) ops).filter_indexes
        ∧ mqttMatches T f = true)
    ∧ (∀ F, alookup (dlApplySeq (DataLog.new cfg) ops).filter_indexes F = none →
        mqttMatches T F = true →
        ∃ L2, alookup (((dlApplySeq (DataLog.new cfg) ops).next_native_offset
            F).2.2).publish_filters T = some L2
          ∧ ((dlApplySeq (DataLog.new cfg) ops).next_native_offset F).1 ∈ L2) := by
  obtain ⟨hc, hb, hn⟩ := dlInv_applySeq (DataLog.new cfg) ops (dlInv_new cfg)
  have hLm : L = matchingFilters (dlApplySeq (DataLog.new cfg) ops) T := hc T L hL
  refine ⟨?_, ?_, ?_⟩
  · rw [hLm]
    exact List.Nodup.sublist (List.Sublist.map Prod.snd (List.filter_sublist _)) hn
  · intro i
    rw [hLm]
    unfold matchingFilters
    constructor
    · intro hi
      rcases List.mem_map.mp hi with ⟨p, hp, hpi⟩
      rcases List.mem_filter.mp hp with ⟨hpmem, hpm⟩
      refine ⟨p.1, ?_, by simpa using hpm⟩
      have : p = (p.1, i) := by rw [← hpi]
      rw [← this]
      exact hpmem
    · rintro ⟨f, hmem, hm⟩
      exact List.mem_map.mpr ⟨(f, i), List.mem_filter.mpr ⟨hmem, by simpa using hm⟩, rfl⟩
  · intro F hF hm
    simp only [DataLog.next_native_offset, hF]
    refine ⟨L ++ [(dlApplySeq (DataLog.new cfg) ops).native.length], ?_, by simp⟩
    simp only [alookup_map_push, hL, Option.map_some', if_pos hm]

/-- Concrete run of claim C1's theorem: after registering `topic/a`,
routing a publish on `topic/a`, and registering `topic/+`, the cache entry
of `topic/a` is `[0, 1]`, which is exactly the two matching filters. -/
theorem cache_correct_witness :
    ([0, 1] : List Nat).Nodup
    ∧ (∀ i, i ∈ ([0, 1] : List Nat) ↔ ∃ f,
        (f, i) ∈ (dlApplySeq (DataLog.new exCfg)
          [DLOp.nno "topic/a", DLOp.mat "topic/a", DLOp.nno "topic/+"]).filter_indexes
        ∧ mqttMatches "topic/a" f = true)
    ∧ (∀ F, alookup (dlApplySeq (DataLog.new exCfg)
          [DLOp.nno "topic/a", DLOp.mat "topic/a", DLOp.nno "topic/+"]).filter_indexes
          F = none →
        mqttMatches "topic/a" F = true →
        ∃ L2, alookup (((dlApplySeq (DataLog.new exCfg)
            [DLOp.nno "topic/a", DLOp.mat "topic/a", DLOp.nno "topic/+"]).next_native_offset
            F).2.2).publish_filters "topic/a" = some L2
          ∧ ((dlApplySeq (DataLog.new exCfg)
            [DLOp.nno "topic/a", DLOp.mat "topic/a", DLOp.nno "topic/+"]).next_native_offset
            F).1 ∈ L2) :=
  cache_correct exCfg [DLOp.nno "topic/a", DLOp.mat "topic/a", DLOp.nno "topic/+"]
    "topic/a" [0, 1] (by decide)

/-! ## Claim C8: decode errors for unknown reason codes and property ids -/

theorem reasonOf_unknown (b : Nat) (h0 : b ≠ 0) (h146 : b ≠ 146) :
    reasonOf b = .error (.InvalidConnectReturnCode b) := by
  unfold reasonOf
  split <;> simp_all

theorem property_not_pubcomp (pid : Nat) (h31 : pid ≠ 31) (h38 : pid ≠ 38) :
    property pid = .error (.InvalidPropertyType pid)
    ∨ ∃ t, property pid = .ok t
        ∧ t ≠ PropertyType.ReasonString ∧ t ≠ PropertyType.UserProperty := by
  unfold property
  split
  all_goals first
    | exact Or.inl rfl
    | simp_all

theorem readPropsLoop_bad_id (fuel plen cursor : Nat)
    (rs : Option (List Nat)) (ups : List (List Nat × List Nat))
    (bytes : List Nat) (pid : Nat)
    (h31 : pid ≠ 31) (h38 : pid ≠ 38) (hlt : pid < 256)
    (hf : fuel ≠ 0) (hc : cursor < plen) :
    readPropsLoop fuel plen cursor rs ups (pid :: bytes)
      = .error (.InvalidPropertyType pid) := by
  cases fuel with
  | zero => exact absurd rfl hf
  | succ fuel2 =>
    rw [readPropsLoop, if_pos hc]
    have hpb : pid % 256 = pid := Nat.mod_eq_of_lt hlt
    rcases property_not_pubcomp pid h31 h38 with hp | ⟨t, hp, hrs, hup⟩
    · simp only [read_u8]
      rw [hpb, hp]
    · simp only [read_u8]
      rw [hpb, hp]
      cases t <;> simp_all

/-- Claim C8: reading a PubComp with a reason-code byte other than 0x00
(Success) or 0x92 (PacketIdentifierNotFound) is a decode error (the
`reason` table rejects every other byte), and reading one whose properties
block carries a property identifier other than ReasonString (31) or
UserProperty (38) is a decode error; in both cases the reader returns an
error, never a packet. -/
theorem pubcomp_read_rejects_unknown :
    (∀ b, b ≠ 0 → b ≠ 146 →
      reasonOf b = .error (.InvalidConnectReturnCode b))
    ∧ (∀ b pk1 pk2, b ≠ 0 → b ≠ 146 → b < 256 →
        readPacket [0x70, 4, pk1, pk2, b, 0]
          = .error (.InvalidConnectReturnCode b))
    ∧ (∀ pid pk1 pk2, pid ≠ 31 → pid ≠ 38 → pid < 256 →
        readPacket [0x70, 7, pk1, pk2, 0, 3, pid, 0, 0]
          = .error (.InvalidPropertyType pid)) := by
  refine ⟨reasonOf_unknown, ?_, ?_⟩
  · intro b pk1 pk2 h0 h146 hlt
    have hb : b % 256 = b := Nat.mod_eq_of_lt hlt
    simp [readPacket, parse_fixed_header, parseVarint, parseVarintAux,
      PubComp.read, read_u16, read_u8, PubCompProperties.read, hb,
      reasonOf_unknown b h0 h146]
  · intro pid pk1 pk2 h31 h38 hlt
    have hloop := readPropsLoop_bad_id 3 3 0 none [] [0, 0] pid h31 h38 hlt
      (by decide) (by decide)
    simp [readPacket, parse_fixed_header, parseVarint, parseVarintAux,
      PubComp.read, read_u16, read_u8, PubCompProperties.read, hloop]

/-- Concrete run of claim C8's theorem: reason byte 5 and property id 1
(PayloadFormatIndicator, not valid in PubComp) are both rejected. -/
theorem pubcomp_read_rejects_unknown_witness :
    reasonOf 5 = .error (.InvalidConnectReturnCode 5)
    ∧ readPacket [0x70, 4, 0, 1, 5, 0] = .error (.InvalidConnectReturnCode 5)
    ∧ readPacket [0x70, 7, 0, 1, 0, 3, 1, 0, 0]
        = .error (.InvalidPropertyType 1) :=
  ⟨pubcomp_read_rejects_unknown.1 5 (by decide) (by decide),
   pubcomp_read_rejects_unknown.2.1 5 0 1 (by decide) (by decide) (by decide),
   pubcomp_read_rejects_unknown.2.2 1 0 1 (by decide) (by decide) (by decide)⟩

/-! ## Variable-length integer lemmas -/

theorem varintBytes_length (n : Nat) (h : n ≤ 268435455) :
    (varintBytes 4 n).length = len_len n := by
  by_cases h1 : n < 128
  · have e1 : n / 128 = 0 := by omega
    simp only [varintBytes, e1]
    simp [len_len]
    split_ifs <;> omega
  · by_cases h2 : n < 16384
    · have e1 : 0 < n / 128 := by omega
      have e2 : n / 128 / 128 = 0 := by omega
      simp only [varintBytes, e2]
      simp [e1, Nat.pos_iff_ne_zero.mp e1, len_len]
      split_ifs <;> omega
    · by_cases h3 : n < 2097152
      · have e1 : 0 < n / 128 := by omega
        have e2 : 0 < n / 128 / 128 := by omega
        have e3 : n / 128 / 128 / 128 = 0 := by omega
        simp only [varintBytes, e3]
        simp [e1, e2, Nat.pos_iff_ne_zero.mp e1, Nat.pos_iff_ne_zero.mp e2, len_len]
        split_ifs <;> omega
      · have e1 : 0 < n / 128 := by omega
        have e2 : 0 < n / 128 / 128 := by omega
        have e3 : 0 < n / 128 / 128 / 128 := by omega
        have e4 : n / 128 / 128 / 128 / 128 = 0 := by omega
        simp only [varintBytes, e4]
        simp [e1, e2, e3, Nat.pos_iff_ne_zero.mp e1, Nat.pos_iff_ne_zero.mp e2,
          Nat.pos_iff_ne_zero.mp e3, len_len]
        split_ifs <;> omega

theorem parseVarint_varintBytes (n : Nat) (h : n ≤ 268435455)
    (rest : List Nat) :
    parseVarint (varintBytes 4 n ++ rest)
      = .ok ((varintBytes 4 n).length, n) := by
  unfold parseVarint
  by_cases h1 : n < 128
  · have e1 : n / 128 = 0 := by omega
    simp only [varintBytes, e1]
    simp [parseVarintAux, show n % 128 % 256 < 128 by omega]
    omega
  · by_cases h2 : n < 16384
    · have e1 : 0 < n / 128 := by omega
      have e2 : n / 128 / 128 = 0 := by omega
      simp only [varintBytes, e2]
      simp [parseVarintAux, e1, Nat.pos_iff_ne_zero.mp e1,
        show ¬(n % 128 + 128) % 256 < 128 by omega,
        show n / 128 % 128 % 256 < 128 by omega]
      omega
    · by_cases h3 : n < 2097152
      · have e1 : 0 < n / 128 := by omega
        have e2 : 0 < n / 128 / 128 := by omega
        have e3 : n / 128 / 128 / 128 = 0 := by omega
        simp only [varintBytes, e3]
        simp [parseVarintAux, e1, e2, Nat.pos_iff_ne_zero.mp e1,
          Nat.pos_iff_ne_zero.mp e2,
          show ¬(n % 128 + 128) % 256 < 128 by omega,
          show ¬(n / 128 % 128 + 128) % 256 < 128 by omega,
          show n / 128 / 128 % 128 % 256 < 128 by omega]
        omega
      · have e1 : 0 < n / 128 := by omega
        have e2 : 0 < n / 128 / 128 := by omega
        have e3 : 0 < n / 128 / 128 / 128 := by omega
        have e4 : n / 128 / 128 / 128 / 128 = 0 := by omega
        simp only [varintBytes, e4]
        simp [parseVarintAux, e1, e2, e3, Nat.pos_iff_ne_zero.mp e1,
          Nat.pos_iff_ne_zero.mp e2, Nat.pos_iff_ne_zero.mp e3,
          show ¬(n % 128 + 128) % 256 < 128 by omega,
          show ¬(n / 128 % 128 + 128) % 256 < 128 by omega,
          show ¬(n / 128 / 128 % 128 + 128) % 256 < 128 by omega,
          show n / 128 / 128 / 128 % 128 % 256 < 128 by omega]
        omega

/-! ## Shape of the PubComp encoder output -/

theorem upBytes_length (kv : List Nat × List Nat) :
    (upBytes kv).length = 1 + 2 + kv.1.length + 2 + kv.2.length := by
  simp [upBytes, u16be]
  omega

theorem upsBytes_length_cons (kv : List Nat × List Nat)
    (tl : List (List Nat × List Nat)) :
    (upsBytes (kv :: tl)).length = (upBytes kv).length + (upsBytes tl).length := by
  simp [upsBytes]

theorem props_foldl_len (ups : List (List Nat × List Nat)) :
    ∀ n : Nat, (ups.foldl (fun len kv =>
        len + (1 + 2 + kv.1.length + 2 + kv.2.length)) n)
      = n + (upsBytes ups).length := by
  induction ups with
  | nil => intro n; simp [upsBytes]
  | cons kv tl ih =>
    intro n
    rw [List.foldl_cons, ih, upsBytes_length_cons, upBytes_length]
    omega

theorem props_len_eq (p : PubCompProperties) :
    p.len = (rsBytes p.reason_string).length + (upsBytes p.user_properties).length := by
  unfold PubCompProperties.len
  rw [props_foldl_len]
  cases p.reason_string with
  | none => simp [rsBytes]
  | some r =>
    simp [rsBytes, u16be]
    omega

theorem ups_foldl_write (ups : List (List Nat × List Nat)) :
    ∀ buf : List Nat, (ups.foldl (fun b kv =>
        write_mqtt_string (write_mqtt_string (b ++ [38]) kv.1) kv.2) buf)
      = buf ++ upsBytes ups := by
  induction ups with
  | nil => intro buf; simp [upsBytes]
  | cons kv tl ih =>
    intro buf
    rw [List.foldl_cons, ih]
    simp [write_mqtt_string, upsBytes, upBytes, List.append_assoc]

theorem write_remaining_length_ok (buffer : List Nat) (len : Nat)
    (h : len ≤ 268435455) :
    write_remaining_length buffer len
      = (buffer ++ varintBytes 4 len, .ok (varintBytes 4 len).length) := by
  unfold write_remaining_length
  rw [if_neg (by omega)]

theorem props_write_eq (p : PubCompProperties) (buffer : List Nat)
    (h : p.len ≤ 268435455) :
    p.write buffer = (buffer ++ (varintBytes 4 p.len
      ++ (rsBytes p.reason_string ++ upsBytes p.user_properties)), .ok ()) := by
  unfold PubCompProperties.write
  rw [write_remaining_length_ok _ _ h]
  cases hrs : p.reason_string with
  | none =>
    simp only [hrs, ups_foldl_write]
    simp [rsBytes, List.append_assoc]
  | some r =>
    simp only [hrs, ups_foldl_write]
    simp [write_mqtt_string, rsBytes, List.append_assoc]

theorem pubcomp_write_eq (p : PubComp) (buffer : List Nat)
    (h : p.len ≤ 268435455) :
    p.write buffer = (buffer ++ pubCompBytes p, .ok p.size) := by
  rcases p with ⟨pkid, reason, properties⟩
  cases reason with
  | Success =>
    cases properties with
    | none =>
      unfold PubComp.write
      rw [write_remaining_length_ok _ _ h]
      simp [pubCompBytes, pubCompBody, PubComp.size, List.append_assoc]
    | some props =>
      have hp : props.len ≤ 268435455 := by
        simp [PubComp.len] at h
        omega
      unfold PubComp.write
      rw [write_remaining_length_ok _ _ h]
      simp only [props_write_eq props _ hp]
      simp [pubCompBytes, pubCompBody, PubComp.size, PubComp.len, code,
        varintBytes_length _ h, List.append_assoc]
      exact varintBytes_length _ (by simp [PubComp.len] at h; omega)
  | PacketIdentifierNotFound =>
    cases properties with
    | none =>
      unfold PubComp.write
      rw [write_remaining_length_ok _ _ h]
      simp [write_remaining_length_ok _ 0 (by omega), pubCompBytes, pubCompBody,
        PubComp.size, PubComp.len, code, varintBytes, varintBytes_length _ h,
        List.append_assoc]
      decide
    | some props =>
      have hp : props.len ≤ 268435455 := by
        simp [PubComp.len] at h
        omega
      unfold PubComp.write
      rw [write_remaining_length_ok _ _ h]
      simp only [props_write_eq props _ hp]
      simp [pubCompBytes, pubCompBody, PubComp.size, PubComp.len, code,
        varintBytes_length _ h, List.append_assoc]
      exact varintBytes_length _ (by simp [PubComp.len] at h; omega)

theorem pubCompBytes_length (p : PubComp) (h : p.len ≤ 268435455) :
    (pubCompBytes p).length = p.size := by
  rcases p with ⟨pkid, reason, properties⟩
  cases reason with
  | Success =>
    cases properties with
    | none =>
      simp [pubCompBytes, pubCompBody, PubComp.size, PubComp.len, u16be,
        varintBytes]
    | some props =>
      have hp : props.len ≤ 268435455 := by
        simp [PubComp.len] at h
        omega
      have h1 : (varintBytes 4 (3 + (len_len props.len + props.len))).length
          = len_len (3 + (len_len props.len + props.len)) :=
        varintBytes_length _ (by simp [PubComp.len] at h; omega)
      have h2 : (varintBytes 4 props.len).length = len_len props.len :=
        varintBytes_length _ hp
      have h3 := props_len_eq props
      simp [pubCompBytes, pubCompBody, PubComp.size, PubComp.len, code, u16be,
        h1, h2]
      omega
  | PacketIdentifierNotFound =>
    cases properties with
    | none =>
      simp [pubCompBytes, pubCompBody, PubComp.size, PubComp.len, code, u16be,
        varintBytes, len_len]
    | some props =>
      have hp : props.len ≤ 268435455 := by
        simp [PubComp.len] at h
        omega
      have h1 : (varintBytes 4 (3 + (len_len props.len + props.len))).length
          = len_len (3 + (len_len props.len + props.len)) :=
        varintBytes_length _ (by simp [PubComp.len] at h; omega)
      have h2 : (varintBytes 4 props.len).length = len_len props.len :=
        varintBytes_length _ hp
      have h3 := props_len_eq props
      simp [pubCompBytes, pubCompBody, PubComp.size, PubComp.len, code, u16be,
        h1, h2]
      omega

theorem pubcomp_write_overflow (p : PubComp) (buffer : List Nat)
    (h : p.len > 268435455) :
    (p.write buffer).1 = buffer ++ [0x70]
    ∧ (p.write buffer).2 = .error .PayloadTooLong := by
  unfold PubComp.write write_remaining_length
  rw [if_pos h]
  exact ⟨rfl, rfl⟩

/-- Claim C7, counterexample to the claim as stated: a PubComp whose
properties block (one user property with a 268435451-byte key) pushes the
remaining length past the four-byte variable-length-integer maximum; the
writer puts the header byte, then fails, so exactly one byte is appended
while `size()` reports 268435468. -/
theorem pubcomp_size_overflow :
    ((hugePubComp.write []).1).length = 1
    ∧ hugePubComp.size = 268435468
    ∧ (1 : Nat) ≠ 268435468 := by
  have hk : (List.replicate 268435451 (0 : Nat)).length = 268435451 :=
    List.length_replicate _ _
  have hgen : ∀ k : List Nat, k.length = 268435451 →
      (PubCompProperties.mk none [(k, [])]).len = 268435456 := by
    intro k hkk
    unfold PubCompProperties.len
    simp [hkk]
  have hplen := hgen _ hk
  have hgen2 : ∀ props : PubCompProperties, props.len = 268435456 →
      (PubComp.mk 1 .Success (some props)).len = 268435463 := by
    intro props hpl
    simp [PubComp.len, hpl, len_len]
  have hlen : hugePubComp.len = 268435463 := hgen2 _ hplen
  have hbig : hugePubComp.len > 268435455 := by
    rw [hlen]
    norm_num
  obtain ⟨hw1, hw2⟩ := pubcomp_write_overflow hugePubComp [] hbig
  refine ⟨?_, ?_, by decide⟩
  · rw [hw1]
    rfl
  · have hgen3 : ∀ props : PubCompProperties,
        (PubComp.mk 1 .Success (some props)).len = 268435463 →
        (PubComp.mk 1 .Success (some props)).size = 268435468 := by
      intro props hl
      simp [PubComp.size, hl, len_len]
    exact hgen3 _ hlen

/-- Claim C7 as amended: for every PubComp packet whose remaining length
fits the four-byte variable-length integer (len ≤ 268435455 — every
wire-representable packet), `size()` equals the number of bytes `write`
appends to the buffer, and also equals the byte count `write` returns;
for larger packets `write` fails after appending only the header byte, as
the counterexample shows. -/
theorem pubcomp_size_eq_written (p : PubComp) (buffer : List Nat)
    (h : p.len ≤ 268435455) :
    ((p.write buffer).1).length = buffer.length + p.size
    ∧ (p.write buffer).2 = .ok p.size := by
  rw [pubcomp_write_eq p buffer h]
  exact ⟨by simp [pubCompBytes_length p h], rfl⟩

/-- Concrete run of claim C7's theorem: the long form with a reason
string and one user property writes exactly `size()` bytes. -/
theorem pubcomp_size_eq_written_witness :
    (((PubComp.mk 3 .PacketIdentifierNotFound
        (some ⟨some [97], [([107], [118])]⟩)).write []).1).length
      = ([] : List Nat).length
        + (PubComp.mk 3 .PacketIdentifierNotFound
            (some ⟨some [97], [([107], [118])]⟩)).size
    ∧ ((PubComp.mk 3 .PacketIdentifierNotFound
        (some ⟨some [97], [([107], [118])]⟩)).write []).2
      = .ok (PubComp.mk 3 .PacketIdentifierNotFound
          (some ⟨some [97], [([107], [118])]⟩)).size :=
  pubcomp_size_eq_written
    (PubComp.mk 3 .PacketIdentifierNotFound (some ⟨some [97], [([107], [118])]⟩))
    [] (by decide)

/-! ## Claim C6: PubComp round-trip -/

theorem read_u16_u16be (n : Nat) (h : n < 65536) (rest : List Nat) :
    read_u16 (u16be n ++ rest) = .ok (n, rest) := by
  simp [u16be, read_u16]
  omega

theorem read_mqtt_string_write (s : List Nat) (h : s.length < 65536)
    (rest : List Nat) :
    read_mqtt_string (u16be s.length ++ (s ++ rest)) = .ok (s, rest) := by
  unfold read_mqtt_string
  rw [read_u16_u16be s.length h (s ++ rest)]
  have hle : ¬ s.length > (s ++ rest).length := by simp
  simp [hle, List.take_left, List.drop_left]

theorem readPropsLoop_ups (ups : List (List Nat × List Nat)) :
    ∀ (fuel c : Nat) (rs0 : Option (List Nat))
      (acc : List (List Nat × List Nat)) (rest : List Nat),
      (∀ kv ∈ ups, kv.1.length < 65536 ∧ kv.2.length < 65536) →
      ups.length ≤ fuel →
      readPropsLoop fuel (c + (upsBytes ups).length) c rs0 acc
        (upsBytes ups ++ rest) = .ok (rs0, acc ++ ups, rest) := by
  induction ups with
  | nil =>
    intro fuel c rs0 acc rest _ _
    rw [readPropsLoop.eq_def, if_neg (by simp [upsBytes])]
    simp [upsBytes]
  | cons kv tl ih =>
    obtain ⟨k, v⟩ := kv
    intro fuel c rs0 acc rest hwf hfuel
    cases fuel with
    | zero => simp at hfuel
    | succ fuel2 =>
      obtain ⟨hk, hv⟩ := hwf (k, v) (by simp)
      have hcond : c < c + (upsBytes ((k, v) :: tl)).length := by
        simp [upsBytes_length_cons, upBytes_length]
      rw [readPropsLoop, if_pos hcond]
      have hb : upsBytes ((k, v) :: tl) ++ rest
          = 38 :: (u16be k.length ++ (k ++ (u16be v.length
              ++ (v ++ (upsBytes tl ++ rest))))) := by
        simp [upsBytes, upBytes, List.append_assoc]
      rw [hb]
      have e1 := read_mqtt_string_write k hk
        (u16be v.length ++ (v ++ (upsBytes tl ++ rest)))
      have e2 := read_mqtt_string_write v hv (upsBytes tl ++ rest)
      simp only [read_u8, Nat.reduceMod, property, e1, e2]
      have hplen : c + (upsBytes ((k, v) :: tl)).length
          = c + 1 + (2 + k.length + 2 + v.length) + (upsBytes tl).length := by
        simp [upsBytes_length_cons, upBytes_length]
        omega
      rw [hplen]
      rw [ih fuel2 (c + 1 + (2 + k.length + 2 + v.length)) rs0 (acc ++ [(k, v)])
        rest (fun q hq => hwf q (by simp [hq])) (by simpa using hfuel)]
      simp

theorem upsBytes_length_ge (ups : List (List Nat × List Nat)) :
    ups.length ≤ (upsBytes ups).length := by
  induction ups with
  | nil => simp [upsBytes]
  | cons kv tl ih =>
    rw [upsBytes_length_cons, upBytes_length]
    simp only [List.length_cons]
    omega

theorem readPropsLoop_body (rs : Option (List Nat))
    (ups : List (List Nat × List Nat)) (fuel : Nat) (rest : List Nat)
    (hrs : ∀ r, rs = some r → r.length < 65536)
    (hups : ∀ kv ∈ ups, kv.1.length < 65536 ∧ kv.2.length < 65536)
    (hfuel : rs.elim 0 (fun _ => 1) + ups.length ≤ fuel) :
    readPropsLoop fuel ((rsBytes rs).length + (upsBytes ups).length) 0 none []
      (rsBytes rs ++ (upsBytes ups ++ rest)) = .ok (rs, ups, rest) := by
  cases rs with
  | none =>
    have h := readPropsLoop_ups ups fuel 0 none [] rest hups (by simpa using hfuel)
    simpa [rsBytes] using h
  | some r =>
    have hfuel2 : 1 + ups.length ≤ fuel := by simpa using hfuel
    cases fuel with
    | zero => omega
    | succ fuel2 =>
      have hr := hrs r rfl
      have hcond : 0 < (rsBytes (some r)).length + (upsBytes ups).length := by
        simp [rsBytes]
      rw [readPropsLoop, if_pos hcond]
      have hb : rsBytes (some r) ++ (upsBytes ups ++ rest)
          = 31 :: (u16be r.length ++ (r ++ (upsBytes ups ++ rest))) := by
        simp [rsBytes, List.append_assoc]
      rw [hb]
      have e1 := read_mqtt_string_write r hr (upsBytes ups ++ rest)
      simp only [read_u8, Nat.reduceMod, property, e1]
      have hplen : (rsBytes (some r)).length + (upsBytes ups).length
          = 0 + 1 + (2 + r.length) + (upsBytes ups).length := by
        simp [rsBytes, u16be]
        omega
      rw [hplen]
      rw [readPropsLoop_ups ups fuel2 (0 + 1 + (2 + r.length)) (some r) [] rest
        hups (by omega)]
      simp

theorem props_len_zero (p : PubCompProperties) (h : p.len = 0) :
    p = ⟨none, []⟩ := by
  rw [props_len_eq] at h
  rcases p with ⟨rs, ups⟩
  cases rs with
  | some r =>
    simp [rsBytes, u16be] at h
  | none =>
    cases ups with
    | nil => rfl
    | cons kv tl =>
      rw [upsBytes_length_cons, upBytes_length] at h
      simp [rsBytes] at h

theorem len_len_pos (n : Nat) : 1 ≤ len_len n := by
  unfold len_len
  split_ifs <;> omega

theorem reasonOf_code (r : PubCompReason) : reasonOf (code r) = .ok r := by
  cases r <;> rfl

theorem props_read_write (props : PubCompProperties) (rest : List Nat)
    (hwf : propsWf props) (hmax : props.len ≤ 268435455) (hne : props.len ≠ 0) :
    PubCompProperties.read (varintBytes 4 props.len
      ++ ((rsBytes props.reason_string ++ upsBytes props.user_properties) ++ rest))
      = .ok (some props, rest) := by
  have hrs : ∀ r, props.reason_string = some r → r.length < 65536 :=
    fun r hr => hwf.1 r hr
  have hups : ∀ kv ∈ props.user_properties,
      kv.1.length < 65536 ∧ kv.2.length < 65536 :=
    fun kv hkv => hwf.2 kv hkv
  have hfuel : (props.reason_string).elim 0 (fun _ => 1)
      + props.user_properties.length ≤ props.len := by
    rw [props_len_eq]
    have h1 := upsBytes_length_ge props.user_properties
    cases hcs : props.reason_string with
    | none => simp [rsBytes]; omega
    | some r => simp [rsBytes, u16be]; omega
  unfold PubCompProperties.read
  rw [parseVarint_varintBytes props.len hmax _]
  simp only [List.drop_left, List.append_assoc]
  rw [if_neg hne]
  have hpe := props_len_eq props
  rw [hpe]
  rw [readPropsLoop_body props.reason_string props.user_properties _ rest
    hrs hups (by rw [← hpe]; exact hfuel)]

theorem readPacket_shape (b1 : Nat) (n : Nat) (hn : n ≤ 268435455)
    (X : List Nat)
    (h2 : 2 ≤ (b1 :: (varintBytes 4 n ++ X)).length) :
    readPacket (b1 :: (varintBytes 4 n ++ X))
      = PubComp.read ⟨b1 % 256, 1 + (varintBytes 4 n).length, n⟩
          (b1 :: (varintBytes 4 n ++ X)) := by
  unfold readPacket parse_fixed_header
  have hh : ¬ (b1 :: (varintBytes 4 n ++ X)).length < 2 := by omega
  have hv1 : 1 ≤ (varintBytes 4 n).length := by
    rw [varintBytes_length n hn]
    exact len_len_pos n
  simp [hh, parseVarint_varintBytes n hn X]
  rw [if_neg (by omega)]

theorem pubcomp_read_decomp (p : PubComp) (hpk : p.pkid < 65536)
    (hmax : p.len ≤ 268435455) :
    readPacket (pubCompBytes p)
      = (if p.len = 2 then .ok ⟨p.pkid, .Success, none⟩
         else
           match read_u8 (pubCompBody p) with
           | .error e => .error e
           | .ok (ack_reason, bytes3) =>
             if p.len < 4 then
               match reasonOf ack_reason with
               | .error e => .error e
               | .ok r => .ok ⟨p.pkid, r, none⟩
             else
               match PubCompProperties.read bytes3 with
               | .error e => .error e
               | .ok (properties, _) =>
                 match reasonOf ack_reason with
                 | .error e => .error e
                 | .ok r => .ok ⟨p.pkid, r, properties⟩) := by
  have hshape : pubCompBytes p
      = 0x70 :: (varintBytes 4 p.len ++ (u16be p.pkid ++ pubCompBody p)) := by
    simp [pubCompBytes]
  rw [hshape, readPacket_shape 0x70 p.len hmax _ (by simp [u16be]; omega)]
  unfold PubComp.read
  have hdrop : (0x70 :: (varintBytes 4 p.len ++ (u16be p.pkid ++ pubCompBody p))).drop
      (1 + (varintBytes 4 p.len).length) = u16be p.pkid ++ pubCompBody p := by
    rw [Nat.add_comm, List.drop_succ_cons, List.drop_left]
  simp only [hdrop]
  rw [read_u16_u16be p.pkid hpk (pubCompBody p)]

theorem varintBytes_zero : varintBytes 4 0 = [0] := rfl

/-- Claim C6, counterexample to the claim as stated: the packet with
`Success` and an explicitly present but empty properties record (no reason
string, no user properties) is valid, but its encoding decodes to the
packet with `properties = None`: the reader maps a zero-length properties
block to `None`, so the round trip is not the identity on this packet. -/
theorem pubcomp_roundtrip_counterexample :
    readPacket (((PubComp.mk 7 .Success (some ⟨none, []⟩)).write []).1)
      = .ok (PubComp.mk 7 .Success none)
    ∧ PubComp.mk 7 .Success none ≠ PubComp.mk 7 .Success (some ⟨none, []⟩) := by
  constructor <;> decide

/-- Claim C6 as amended: for every valid PubComp packet — pkid a `u16`,
every property string at most 65535 bytes, remaining length within the
four-byte variable-length integer — whose properties field is not
`Some` of the empty record, writing the packet and reading the bytes back
yields the packet itself, in both the short form (Success, no properties)
and all long forms; the packet with an empty-but-present properties record
decodes with `properties = None`, as the counterexample shows. -/
theorem pubcomp_roundtrip (p : PubComp) (hwf : p.wire_ok)
    (hne : p.properties ≠ some ⟨none, []⟩) :
    readPacket (p.write []).1 = .ok p := by
  obtain ⟨hpk, hmax, hprops⟩ := hwf
  rw [pubcomp_write_eq p [] hmax, List.nil_append]
  rw [pubcomp_read_decomp p hpk hmax]
  rcases p with ⟨pkid, reason, properties⟩
  cases reason with
  | Success =>
    cases properties with
    | none =>
      have hlen : (PubComp.mk pkid .Success none).len = 2 := rfl
      rw [hlen, if_pos rfl]
    | some props =>
      have hpw : propsWf props := hprops props rfl
      have hpne : props.len ≠ 0 := by
        intro h0
        exact hne (by rw [props_len_zero props h0])
      have hlen : (PubComp.mk pkid .Success (some props)).len
          = 2 + 1 + (len_len props.len + props.len) := rfl
      have hpmax : props.len ≤ 268435455 := by
        rw [hlen] at hmax
        omega
      have hll := len_len_pos props.len
      have he2 : ¬ (PubComp.mk pkid .Success (some props)).len = 2 := by
        rw [hlen]
        omega
      have he4 : ¬ (PubComp.mk pkid .Success (some props)).len < 4 := by
        rw [hlen]
        omega
      rw [if_neg he2]
      have hbody : pubCompBody (PubComp.mk pkid .Success (some props))
          = 0 :: (varintBytes 4 props.len
              ++ (rsBytes props.reason_string ++ upsBytes props.user_properties)) := by
        simp [pubCompBody, code]
      rw [hbody]
      have hread : PubCompProperties.read (varintBytes 4 props.len
          ++ (rsBytes props.reason_string ++ upsBytes props.user_properties))
          = .ok (some props, []) := by
        have h := props_read_write props [] hpw hpmax hpne
        simpa using h
      simp only [read_u8, Nat.reduceMod, if_neg he4, hread, reasonOf]
  | PacketIdentifierNotFound =>
    cases properties with
    | none =>
      have hlen : (PubComp.mk pkid .PacketIdentifierNotFound none).len = 4 := rfl
      have hbody : pubCompBody (PubComp.mk pkid .PacketIdentifierNotFound none)
          = 146 :: [0] := by
        simp [pubCompBody, code, varintBytes_zero]
      rw [hlen, if_neg (by omega), hbody]
      have hread : PubCompProperties.read [0] = .ok (none, []) := rfl
      simp only [read_u8, Nat.reduceMod, if_neg (by omega : ¬ (4 : Nat) < 4),
        hread, reasonOf]
    | some props =>
      have hpw : propsWf props := hprops props rfl
      have hpne : props.len ≠ 0 := by
        intro h0
        exact hne (by rw [props_len_zero props h0])
      have hlen : (PubComp.mk pkid .PacketIdentifierNotFound (some props)).len
          = 2 + 1 + (len_len props.len + props.len) := rfl
      have hpmax : props.len ≤ 268435455 := by
        rw [hlen] at hmax
        omega
      have hll := len_len_pos props.len
      have he2 : ¬ (PubComp.mk pkid .PacketIdentifierNotFound (some props)).len = 2 := by
        rw [hlen]
        omega
      have he4 : ¬ (PubComp.mk pkid .PacketIdentifierNotFound (some props)).len < 4 := by
        rw [hlen]
        omega
      rw [if_neg he2]
      have hbody : pubCompBody (PubComp.mk pkid .PacketIdentifierNotFound (some props))
          = 146 :: (varintBytes 4 props.len
              ++ (rsBytes props.reason_string ++ upsBytes props.user_properties)) := by
        simp [pubCompBody, code]
      rw [hbody]
      have hread : PubCompProperties.read (varintBytes 4 props.len
          ++ (rsBytes props.reason_string ++ upsBytes props.user_properties))
          = .ok (some props, []) := by
        have h := props_read_write props [] hpw hpmax hpne
        simpa using h
      simp only [read_u8, Nat.reduceMod, if_neg he4, hread, reasonOf]

/-- Concrete run of claim C6's amended theorem: the long form with reason
PacketIdentifierNotFound, a reason string and one user property survives
the write/read round trip. -/
theorem pubcomp_roundtrip_witness :
    readPacket ((PubComp.mk 3 .PacketIdentifierNotFound
        (some ⟨some [97], [([107], [118])]⟩)).write []).1
      = .ok (PubComp.mk 3 .PacketIdentifierNotFound
          (some ⟨some [97], [([107], [118])]⟩)) :=
  pubcomp_roundtrip _
    ⟨by decide, by decide,
     fun props hp => by
       injection hp with hp
       rw [← hp]
       refine ⟨fun r hr => ?_, fun kv hkv => ?_⟩
       · injection hr with hr
         rw [← hr]
         simp [strWf]
       · simp at hkv
         rw [hkv]
         refine ⟨?_, ?_⟩ <;> simp [strWf]⟩
    (by decide)
